import Mathlib

/-!
Verification of the design spec of the enarx_sev_kvm_demo repository against
its source.  The definitions below are shallow embeddings of the Rust code:

* `MemoryMap` and its operations model `src/vmsyscall/src/memory_map.rs`
  (machine integers `u64` are modelled as `Nat`; no arithmetic in this file
  comes close to `2^64`, and every subtraction is guarded in the source);
* the page-table construction and the guest-physical to host-virtual
  translation model `src/vmrun/src/kvmvm.rs`;
* the stack/TSS initialisation and the `AT_RANDOM` construction model
  `src/kernel/src/arch/x86_64/mod.rs`.
-/

/-- `MemoryRegionType` from memory_map.rs. -/
inductive MemoryRegionType where
  | Usable
  | InUse
  | Reserved
  | AcpiReclaimable
  | AcpiNvs
  | BadMemory
  | Kernel
  | App
  | Bootloader
  | FrameZero
  | Empty
  | NonExhaustive
  deriving DecidableEq

/-- `FrameRange` from memory_map.rs: half-open range of 4 KiB frame numbers. -/
structure FrameRange where
  start_frame_number : Nat
  end_frame_number : Nat
  deriving DecidableEq

/-- `FrameRange::new(start_addr, end_addr)`: `last_byte = end_addr - 1`,
`start/PAGE_SIZE` and `last_byte/PAGE_SIZE + 1`. -/
def FrameRange.new (start_addr end_addr : Nat) : FrameRange :=
  { start_frame_number := start_addr / 4096
    end_frame_number := (end_addr - 1) / 4096 + 1 }

/-- `FrameRange::is_empty`. -/
def FrameRange.is_empty (r : FrameRange) : Bool :=
  r.start_frame_number == r.end_frame_number

/-- `MemoryRegion` from memory_map.rs. -/
structure MemoryRegion where
  range : FrameRange
  region_type : MemoryRegionType
  deriving DecidableEq

/-- `MemoryRegion::empty()`. -/
def MemoryRegion.empty : MemoryRegion :=
  { range := { start_frame_number := 0, end_frame_number := 0 }
    region_type := MemoryRegionType.Empty }

/-- `MemoryMap`: the backing array (always 64 entries, kept as a list of
length 64) plus `next_entry_index`. -/
structure MemoryMap where
  entries : List MemoryRegion
  next_entry_index : Nat
  deriving DecidableEq

/-- `MemoryMap::new()`. -/
def MemoryMap.new : MemoryMap :=
  { entries := List.replicate 64 MemoryRegion.empty, next_entry_index := 0 }

/-- The `try_for_each` merge pass of `add_region`: scan all 64 entries in
array order; at the first entry of the same type whose `end_frame_number`
lies in `[region.start, region.end]`, extend that entry to `region.end` and
stop (`Err(())` in the Rust, i.e. a merge happened). -/
def addRegionMerge : List MemoryRegion → MemoryRegion → Option (List MemoryRegion)
  | [], _ => none
  | e :: es, region =>
    if e.region_type = region.region_type
        ∧ region.range.start_frame_number ≤ e.range.end_frame_number
        ∧ e.range.end_frame_number ≤ region.range.end_frame_number then
      some ({ e with range := { e.range with
                end_frame_number := region.range.end_frame_number } } :: es)
    else
      match addRegionMerge es region with
      | some es2 => some (e :: es2)
      | none => none

/-- The comparator of `MemoryMap::sort` as a boolean `le`.  The Rust
comparator returns `Greater` whenever `r1` is empty, `Less` whenever only
`r2` is empty, and otherwise compares `(start_frame_number,
end_frame_number)` lexicographically.  For two empty ranges the Rust
comparator is inconsistent and `sort_unstable_by` leaves their relative
order unspecified; we model that tie as `le = true` both ways, which is one
of the allowed outcomes. -/
def regionLe (a b : MemoryRegion) : Bool :=
  if a.range.is_empty then b.range.is_empty
  else if b.range.is_empty then true
  else if a.range.start_frame_number = b.range.start_frame_number then
    decide (a.range.end_frame_number ≤ b.range.end_frame_number)
  else decide (a.range.start_frame_number < b.range.start_frame_number)

/-- `regionLe` as a relation, for `List.insertionSort`. -/
def RLe (a b : MemoryRegion) : Prop := regionLe a b = true

instance : DecidableRel RLe := fun a b => by
  unfold RLe; infer_instance

theorem rle_iff (a b : MemoryRegion) :
    RLe a b ↔
      (a.range.is_empty = true ∧ b.range.is_empty = true)
      ∨ (a.range.is_empty = false
          ∧ (b.range.is_empty = true
             ∨ a.range.start_frame_number < b.range.start_frame_number
             ∨ (a.range.start_frame_number = b.range.start_frame_number
                ∧ a.range.end_frame_number ≤ b.range.end_frame_number))) := by
  unfold RLe regionLe
  split_ifs <;> simp_all [Bool.not_eq_true] <;> omega

instance : IsTotal MemoryRegion RLe where
  total a b := by
    rw [rle_iff, rle_iff]
    cases ha : a.range.is_empty <;> cases hb : b.range.is_empty <;> simp <;> omega

instance : IsTrans MemoryRegion RLe where
  trans a b c := by
    rw [rle_iff, rle_iff, rle_iff]
    cases ha : a.range.is_empty <;> cases hb : b.range.is_empty <;>
      cases hc : c.range.is_empty <;> simp <;> omega

/-- Index of the first entry with an empty range (`iter().position(...)`). -/
def firstEmptyIdx : List MemoryRegion → Option Nat
  | [] => none
  | e :: es => if e.range.is_empty then some 0 else (firstEmptyIdx es).map (· + 1)

/-- `MemoryMap::sort`: sort the whole backing array with the comparator,
then reset `next_entry_index` to the position of the first empty-range
entry if one exists (otherwise it is left unchanged). -/
def MemoryMap.sort (m : MemoryMap) : MemoryMap :=
  let es := List.insertionSort RLe m.entries
  { entries := es
    next_entry_index :=
      match firstEmptyIdx es with
      | some i => i
      | none => m.next_entry_index }

/-- `MemoryMap::add_region`.  `none` models the `assert!` panic on a full
map. -/
def MemoryMap.add_region (m : MemoryMap) (region : MemoryRegion) : Option MemoryMap :=
  match addRegionMerge m.entries region with
  | some es => some { entries := es, next_entry_index := m.next_entry_index }
  | none =>
    if m.next_entry_index < 64 then
      some (MemoryMap.sort
        { entries := m.entries.set m.next_entry_index region
          next_entry_index := m.next_entry_index + 1 })
    else none

/-- The "New region extends old region" rewrite of `mark_allocated_region`:
if entry `r` has the same type and `r.start ≤ region.start < r.end ≤
region.end`, the loop variable `region` is trimmed to begin at `r.end`. -/
def markTrim (r region : MemoryRegion) : MemoryRegion :=
  if r.region_type = region.region_type
      ∧ r.range.start_frame_number ≤ region.range.start_frame_number
      ∧ region.range.start_frame_number < r.range.end_frame_number
      ∧ r.range.end_frame_number ≤ region.range.end_frame_number then
    { region with range := { region.range with
        start_frame_number := r.range.end_frame_number } }
  else region

/-- The terminal part of one `mark_allocated_region` iteration, reached when
entry `i` overlaps `region`: the non-Usable `panic!` (modelled as `none`)
and the `match` on `region.start.cmp(&r.start)`.  `r` is `entries[i]`. -/
def markFinish (m : MemoryMap) (region : MemoryRegion) (i : Nat) : Option MemoryMap :=
  if (m.entries.getD i MemoryRegion.empty).region_type ≠ MemoryRegionType.Usable then
    none
  else if region.range.start_frame_number
      = (m.entries.getD i MemoryRegion.empty).range.start_frame_number then
    if region.range.end_frame_number
        < (m.entries.getD i MemoryRegion.empty).range.end_frame_number then
      (MemoryMap.mk
        (m.entries.set i { m.entries.getD i MemoryRegion.empty with
          range := { (m.entries.getD i MemoryRegion.empty).range with
            start_frame_number := region.range.end_frame_number } })
        m.next_entry_index).add_region region
    else
      some (MemoryMap.mk (m.entries.set i region) m.next_entry_index)
  else if (m.entries.getD i MemoryRegion.empty).range.start_frame_number
      < region.range.start_frame_number then
    if region.range.end_frame_number
        < (m.entries.getD i MemoryRegion.empty).range.end_frame_number then
      ((MemoryMap.mk
        (m.entries.set i { m.entries.getD i MemoryRegion.empty with
          range := { (m.entries.getD i MemoryRegion.empty).range with
            end_frame_number := region.range.start_frame_number } })
        m.next_entry_index).add_region
          { m.entries.getD i MemoryRegion.empty with
            range := { (m.entries.getD i MemoryRegion.empty).range with
              start_frame_number := region.range.end_frame_number } }).bind
        (fun m3 => m3.add_region region)
    else
      (MemoryMap.mk
        (m.entries.set i { m.entries.getD i MemoryRegion.empty with
          range := { (m.entries.getD i MemoryRegion.empty).range with
            end_frame_number := region.range.start_frame_number } })
        m.next_entry_index).add_region region
  else
    (MemoryMap.mk
      (m.entries.set i { m.entries.getD i MemoryRegion.empty with
        range := { (m.entries.getD i MemoryRegion.empty).range with
          start_frame_number := region.range.end_frame_number } })
      m.next_entry_index).add_region region

/-- The `for r in self.iter_mut()` loop of `mark_allocated_region`, indexed
by the loop position `i` (the iterator runs over `entries[0 ..
next_entry_index]`) with structural fuel.  `none` models the two `panic!`
calls and the `assert!` inside `add_region`. -/
def markLoop (m : MemoryMap) (region : MemoryRegion) (i fuel : Nat) : Option MemoryMap :=
  match fuel with
  | 0 => none
  | fuel + 1 =>
    if i < m.next_entry_index ∧ i < m.entries.length then
      if (m.entries.getD i MemoryRegion.empty).region_type = region.region_type
          ∧ (m.entries.getD i MemoryRegion.empty).range.start_frame_number
              ≤ region.range.start_frame_number
          ∧ region.range.end_frame_number
              ≤ (m.entries.getD i MemoryRegion.empty).range.end_frame_number then
        some m
      else if (m.entries.getD i MemoryRegion.empty).range.end_frame_number
          ≤ (markTrim (m.entries.getD i MemoryRegion.empty) region).range.start_frame_number then
        markLoop m (markTrim (m.entries.getD i MemoryRegion.empty) region) (i + 1) fuel
      else if (markTrim (m.entries.getD i MemoryRegion.empty) region).range.end_frame_number
          ≤ (m.entries.getD i MemoryRegion.empty).range.start_frame_number then
        markLoop m (markTrim (m.entries.getD i MemoryRegion.empty) region) (i + 1) fuel
      else
        markFinish m (markTrim (m.entries.getD i MemoryRegion.empty) region) i
    else none

/-- `MemoryMap::mark_allocated_region`. -/
def MemoryMap.mark_allocated_region (m : MemoryMap) (region : MemoryRegion) :
    Option MemoryMap :=
  markLoop m region 0 (m.next_entry_index + 1)

/-- A mutating call on a `MemoryMap`. -/
inductive Op where
  | add (r : MemoryRegion)
  | mark (r : MemoryRegion)

def applyOp (m : MemoryMap) : Op → Option MemoryMap
  | .add r => m.add_region r
  | .mark r => m.mark_allocated_region r

/-- Run a sequence of `add_region`/`mark_allocated_region` calls; `none` as
soon as one of them panics. -/
def applyOps : MemoryMap → List Op → Option MemoryMap
  | m, [] => some m
  | m, op :: ops =>
    match applyOp m op with
    | some m2 => applyOps m2 ops
    | none => none

/-- Frame `f` is covered by entry `e`, `e` counting only if its kind is not
`Empty`. -/
def inRange (e : MemoryRegion) (f : Nat) : Bool :=
  decide (e.region_type ≠ MemoryRegionType.Empty
    ∧ e.range.start_frame_number ≤ f ∧ f < e.range.end_frame_number)

def coveredL (es : List MemoryRegion) (f : Nat) : Bool :=
  es.any (fun e => inRange e f)

/-- Frame `f` is covered by some non-Empty region of the map. -/
def MemoryMap.covered (m : MemoryMap) (f : Nat) : Bool :=
  coveredL m.entries f

/-! ### Generic facts about the model -/

theorem addRegionMerge_length (es : List MemoryRegion) (x : MemoryRegion)
    (es2 : List MemoryRegion) (h : addRegionMerge es x = some es2) :
    es2.length = es.length := by
  induction es generalizing es2 with
  | nil => simp [addRegionMerge] at h
  | cons e es ih =>
    unfold addRegionMerge at h
    split_ifs at h with hc
    · cases h; simp
    · cases hm : addRegionMerge es x with
      | none => rw [hm] at h; cases h
      | some es3 => rw [hm] at h; cases h; simp [ih es3 hm]

theorem firstEmptyIdx_lt_length (es : List MemoryRegion) (i : Nat)
    (h : firstEmptyIdx es = some i) : i < es.length := by
  induction es generalizing i with
  | nil => simp [firstEmptyIdx] at h
  | cons e es ih =>
    unfold firstEmptyIdx at h
    split_ifs at h with hc
    · cases h; simp
    · cases hm : firstEmptyIdx es with
      | none => rw [hm] at h; cases h
      | some k =>
        rw [hm] at h; simp only [Option.map_some'] at h; cases h
        have := ih k hm
        simp only [List.length_cons]; omega

theorem firstEmptyIdx_before (es : List MemoryRegion) (i : Nat)
    (h : firstEmptyIdx es = some i) (j : Nat) (hj : j < i) :
    (es.getD j MemoryRegion.empty).range.is_empty = false := by
  induction es generalizing i j with
  | nil => simp [firstEmptyIdx] at h
  | cons e es ih =>
    unfold firstEmptyIdx at h
    split_ifs at h with hc
    · cases h; omega
    · cases hm : firstEmptyIdx es with
      | none => rw [hm] at h; cases h
      | some k =>
        rw [hm] at h; simp only [Option.map_some'] at h; cases h
        cases j with
        | zero => simpa [Bool.not_eq_true] using hc
        | succ j => simpa using ih k hm j (by omega)

theorem firstEmptyIdx_none (es : List MemoryRegion)
    (h : firstEmptyIdx es = none) (e : MemoryRegion) (he : e ∈ es) :
    e.range.is_empty = false := by
  induction es with
  | nil => cases he
  | cons a es ih =>
    by_cases hc : a.range.is_empty = true
    · exfalso; unfold firstEmptyIdx at h; rw [if_pos hc] at h; cases h
    · have h2 : (firstEmptyIdx es).map (· + 1) = none := by
        unfold firstEmptyIdx at h; rwa [if_neg hc] at h
      have hm : firstEmptyIdx es = none := by
        cases hm2 : firstEmptyIdx es with
        | none => rfl
        | some k => rw [hm2] at h2; simp at h2
      rcases List.mem_cons.mp he with rfl | he2
      · simpa [Bool.not_eq_true] using hc
      · exact ih hm he2

/-- The entries `[0, next_entry_index)` are sorted by `start_frame_number`. -/
def MemoryMap.sortedHead (m : MemoryMap) : Prop :=
  ∀ i j, i < j → j < m.next_entry_index →
    (m.entries.getD i MemoryRegion.empty).range.start_frame_number ≤
      (m.entries.getD j MemoryRegion.empty).range.start_frame_number

/-- No entry of `[0, next_entry_index)` has an empty range; equivalently,
all empty-range entries live in the tail `[next_entry_index, 64)`. -/
def MemoryMap.headNonempty (m : MemoryMap) : Prop :=
  ∀ j, j < m.next_entry_index →
    (m.entries.getD j MemoryRegion.empty).range.is_empty = false

theorem sort_entries (m : MemoryMap) :
    m.sort.entries = List.insertionSort RLe m.entries := rfl

theorem sort_good (m : MemoryMap) (hnext : m.next_entry_index ≤ m.entries.length) :
    m.sort.sortedHead ∧ m.sort.headNonempty := by
  have hlen : m.sort.entries.length = m.entries.length := by
    rw [sort_entries]; exact List.length_insertionSort RLe m.entries
  have hsorted : List.Sorted RLe m.sort.entries := by
    rw [sort_entries]; exact List.sorted_insertionSort RLe m.entries
  have hnext2 : m.sort.next_entry_index ≤ m.sort.entries.length := by
    show (match firstEmptyIdx (List.insertionSort RLe m.entries) with
      | some i => i
      | none => m.next_entry_index) ≤ m.sort.entries.length
    cases hf : firstEmptyIdx (List.insertionSort RLe m.entries) with
    | some i =>
      show i ≤ m.sort.entries.length
      have hi := firstEmptyIdx_lt_length _ _ hf
      rw [List.length_insertionSort] at hi
      rw [hlen]; omega
    | none =>
      show m.next_entry_index ≤ m.sort.entries.length
      rw [hlen]; exact hnext
  have hne : m.sort.headNonempty := by
    intro j hj
    show ((List.insertionSort RLe m.entries).getD j MemoryRegion.empty).range.is_empty = false
    have hj2 : m.sort.next_entry_index =
        (match firstEmptyIdx (List.insertionSort RLe m.entries) with
          | some i => i
          | none => m.next_entry_index) := rfl
    cases hf : firstEmptyIdx (List.insertionSort RLe m.entries) with
    | some i =>
      rw [hj2, hf] at hj
      exact firstEmptyIdx_before _ _ hf j hj
    | none =>
      have hjlen : j < (List.insertionSort RLe m.entries).length := by
        have := hnext2; rw [sort_entries] at *; omega
      rw [List.getD_eq_getElem _ _ hjlen]
      exact firstEmptyIdx_none _ hf _ (List.getElem_mem hjlen)
  refine ⟨?_, hne⟩
  intro i j hij hj
  have hjlen : j < m.sort.entries.length := by omega
  have hilen : i < m.sort.entries.length := by omega
  have hrle : RLe (m.sort.entries.get ⟨i, hilen⟩) (m.sort.entries.get ⟨j, hjlen⟩) :=
    List.pairwise_iff_get.mp hsorted ⟨i, hilen⟩ ⟨j, hjlen⟩ hij
  have hi_ne := hne i (by omega)
  have hj_ne := hne j hj
  rw [List.getD_eq_getElem _ _ hilen] at hi_ne ⊢
  rw [List.getD_eq_getElem _ _ hjlen] at hj_ne ⊢
  simp only [List.get_eq_getElem] at hrle
  rw [rle_iff] at hrle
  rcases hrle with ⟨h1, _⟩ | ⟨_, h2 | h2 | ⟨h2, _⟩⟩
  · rw [h1] at hi_ne; cases hi_ne
  · rw [h2] at hj_ne; cases hj_ne
  · omega
  · omega

/-- Structural well-formedness maintained by every operation: the backing
array keeps its 64 entries and `next_entry_index` stays in bounds. -/
def MemoryMap.wf (m : MemoryMap) : Prop :=
  m.entries.length = 64 ∧ m.next_entry_index ≤ 64

theorem sort_wf (m : MemoryMap) (h : m.wf) : m.sort.wf := by
  obtain ⟨hlen, hnext⟩ := h
  constructor
  · rw [sort_entries, List.length_insertionSort, hlen]
  · show (match firstEmptyIdx (List.insertionSort RLe m.entries) with
      | some i => i
      | none => m.next_entry_index) ≤ 64
    cases hf : firstEmptyIdx (List.insertionSort RLe m.entries) with
    | some i =>
      show i ≤ 64
      have := firstEmptyIdx_lt_length _ _ hf
      rw [List.length_insertionSort, hlen] at this
      omega
    | none => exact hnext

theorem add_region_wf (m : MemoryMap) (x : MemoryRegion) (m2 : MemoryMap)
    (h : m.add_region x = some m2) (hw : m.wf) : m2.wf := by
  obtain ⟨hlen, hnext⟩ := hw
  unfold MemoryMap.add_region at h
  cases hm : addRegionMerge m.entries x with
  | some es =>
    rw [hm] at h
    cases h
    exact ⟨by rw [addRegionMerge_length m.entries x es hm]; exact hlen, hnext⟩
  | none =>
    rw [hm] at h
    split_ifs at h with hfull
    cases h
    exact sort_wf _ ⟨by simp [hlen], by show m.next_entry_index + 1 ≤ 64; omega⟩

theorem markFinish_wf (m : MemoryMap) (region : MemoryRegion) (i : Nat)
    (m2 : MemoryMap) (h : markFinish m region i = some m2) (hw : m.wf) : m2.wf := by
  obtain ⟨hlen, hnext⟩ := hw
  unfold markFinish at h
  split_ifs at h with h1 h2 h3 h4 h5
  · exact add_region_wf _ _ _ h ⟨by simp [hlen], hnext⟩
  · cases h; exact ⟨by simp [hlen], hnext⟩
  · cases hb : (MemoryMap.mk
        (m.entries.set i { m.entries.getD i MemoryRegion.empty with
          range := { (m.entries.getD i MemoryRegion.empty).range with
            end_frame_number := region.range.start_frame_number } })
        m.next_entry_index).add_region
          { m.entries.getD i MemoryRegion.empty with
            range := { (m.entries.getD i MemoryRegion.empty).range with
              start_frame_number := region.range.end_frame_number } } with
    | none => rw [hb] at h; cases h
    | some m3 =>
      rw [hb] at h
      have hw3 := add_region_wf _ _ _ hb ⟨by simp [hlen], hnext⟩
      exact add_region_wf _ _ _ h hw3
  · exact add_region_wf _ _ _ h ⟨by simp [hlen], hnext⟩
  · exact add_region_wf _ _ _ h ⟨by simp [hlen], hnext⟩

theorem markLoop_wf (m : MemoryMap) (hw : m.wf) :
    ∀ fuel region i m2, markLoop m region i fuel = some m2 → m2.wf := by
  intro fuel
  induction fuel with
  | zero => intro region i m2 h; simp [markLoop] at h
  | succ fuel ih =>
    intro region i m2 h
    unfold markLoop at h
    split_ifs at h with h1 h2 h3 h4
    · cases h; exact hw
    · exact ih _ _ _ h
    · exact ih _ _ _ h
    · exact markFinish_wf _ _ _ _ h hw

theorem mark_allocated_region_wf (m : MemoryMap) (x : MemoryRegion) (m2 : MemoryMap)
    (h : m.mark_allocated_region x = some m2) (hw : m.wf) : m2.wf :=
  markLoop_wf m hw _ _ _ _ h

theorem applyOps_wf (ops : List Op) (m m2 : MemoryMap)
    (h : applyOps m ops = some m2) (hw : m.wf) : m2.wf := by
  induction ops generalizing m with
  | nil => unfold applyOps at h; cases h; exact hw
  | cons op ops ih =>
    unfold applyOps at h
    cases hop : applyOp m op with
    | none => rw [hop] at h; cases h
    | some m3 =>
      rw [hop] at h
      refine ih m3 h ?_
      cases op with
      | add r => exact add_region_wf _ _ _ hop hw
      | mark r => exact mark_allocated_region_wf _ _ _ hop hw

theorem new_wf : MemoryMap.new.wf := ⟨by simp [MemoryMap.new], by simp [MemoryMap.new]⟩

/-- Frame ranges of two regions overlap. -/
def rangesOverlap (a b : FrameRange) : Bool :=
  decide (max a.start_frame_number b.start_frame_number
    < min a.end_frame_number b.end_frame_number)

def c2ops : List Op :=
  [Op.add ⟨⟨0, 1⟩, MemoryRegionType.Kernel⟩,
   Op.add ⟨⟨0, 1⟩, MemoryRegionType.Reserved⟩,
   Op.add ⟨⟨5, 6⟩, MemoryRegionType.Empty⟩]

def c2res : Option MemoryMap := (applyOps MemoryMap.new c2ops).map MemoryMap.sort

/-- C2 counterexample: three `add_region` calls, each returning normally,
followed by a final `sort`, produce a map whose first two head entries are
overlapping non-Usable regions (`Kernel [0,1)` and `Reserved [0,1)`), and
whose head also contains an `Empty`-kind entry (`Empty [5,6)` at index 2,
with `next_entry_index = 3`), so neither "no two non-Usable regions
overlap" nor "all Empty entries occupy the tail" holds. -/
theorem c2_counterexample :
    c2res.isSome = true
    ∧ (c2res.getD MemoryMap.new).next_entry_index = 3
    ∧ (c2res.getD MemoryMap.new).entries.getD 0 MemoryRegion.empty
        = ⟨⟨0, 1⟩, MemoryRegionType.Kernel⟩
    ∧ (c2res.getD MemoryMap.new).entries.getD 1 MemoryRegion.empty
        = ⟨⟨0, 1⟩, MemoryRegionType.Reserved⟩
    ∧ (c2res.getD MemoryMap.new).entries.getD 2 MemoryRegion.empty
        = ⟨⟨5, 6⟩, MemoryRegionType.Empty⟩
    ∧ rangesOverlap
        ((c2res.getD MemoryMap.new).entries.getD 0 MemoryRegion.empty).range
        ((c2res.getD MemoryMap.new).entries.getD 1 MemoryRegion.empty).range = true
    ∧ ((c2res.getD MemoryMap.new).entries.getD 0 MemoryRegion.empty).region_type
        ≠ MemoryRegionType.Usable
    ∧ ((c2res.getD MemoryMap.new).entries.getD 1 MemoryRegion.empty).region_type
        ≠ MemoryRegionType.Usable
    ∧ ((c2res.getD MemoryMap.new).entries.getD 2 MemoryRegion.empty).region_type
        = MemoryRegionType.Empty := by decide

/-- C2 (amended): after any sequence of `add_region`/`mark_allocated_region`
calls that each return normally, followed by a final `sort`, the entries in
`[0, next_entry_index)` are sorted by `start_frame_number` and none of them
has an empty range (equivalently, all empty-range entries occupy the tail
`[next_entry_index, 64)`). -/
theorem c2_amended (ops : List Op) (m : MemoryMap)
    (h : applyOps MemoryMap.new ops = some m) :
    m.sort.sortedHead ∧ m.sort.headNonempty := by
  have hw := applyOps_wf ops MemoryMap.new m h new_wf
  exact sort_good m (by obtain ⟨h1, h2⟩ := hw; omega)

def c2wOps : List Op := [Op.add ⟨⟨1, 2⟩, MemoryRegionType.Usable⟩]

def c2wMap : MemoryMap := (applyOps MemoryMap.new c2wOps).getD MemoryMap.new

theorem c2_amended_witness :
    applyOps MemoryMap.new c2wOps = some c2wMap
    ∧ (c2wMap.sort.sortedHead ∧ c2wMap.sort.headNonempty) :=
  ⟨by decide, c2_amended c2wOps c2wMap (by decide)⟩

/-! ### C4: add_region merge behaviour -/

/-- The merge condition of `add_region` for one entry. -/
def mergeMatch (e region : MemoryRegion) : Bool :=
  decide (e.region_type = region.region_type
    ∧ region.range.start_frame_number ≤ e.range.end_frame_number
    ∧ e.range.end_frame_number ≤ region.range.end_frame_number)

/-- Index of the first entry (scanning the whole 64-slot backing array in
order) satisfying the merge condition. -/
def mergeIdx : List MemoryRegion → MemoryRegion → Option Nat
  | [], _ => none
  | e :: es, region =>
    if mergeMatch e region then some 0 else (mergeIdx es region).map (· + 1)

theorem mergeIdx_none_iff (es : List MemoryRegion) (region : MemoryRegion) :
    mergeIdx es region = none ↔ addRegionMerge es region = none := by
  induction es with
  | nil => simp [mergeIdx, addRegionMerge]
  | cons e es ih =>
    unfold mergeIdx addRegionMerge mergeMatch
    by_cases hp : e.region_type = region.region_type
        ∧ region.range.start_frame_number ≤ e.range.end_frame_number
        ∧ e.range.end_frame_number ≤ region.range.end_frame_number
    · rw [if_pos (decide_eq_true hp), if_pos hp]; simp
    · rw [if_neg (by simpa using hp), if_neg hp]
      cases hm : addRegionMerge es region with
      | some es2 =>
        simp only [Option.map_eq_none']
        rw [ih, hm]
        simp
      | none =>
        simp only [Option.map_eq_none']
        rw [ih, hm]
        simp

theorem addRegionMerge_of_mergeIdx (es : List MemoryRegion) (region : MemoryRegion)
    (i : Nat) (h : mergeIdx es region = some i) :
    i < es.length
    ∧ addRegionMerge es region
      = some (es.set i { es.getD i MemoryRegion.empty with
          range := { (es.getD i MemoryRegion.empty).range with
            end_frame_number := region.range.end_frame_number } }) := by
  induction es generalizing i with
  | nil => simp [mergeIdx] at h
  | cons e es ih =>
    unfold mergeIdx at h
    split_ifs at h with hm
    · cases h
      refine ⟨by simp, ?_⟩
      unfold addRegionMerge
      rw [if_pos (of_decide_eq_true hm)]
      simp
    · cases hk : mergeIdx es region with
      | none => rw [hk] at h; cases h
      | some k =>
        rw [hk] at h; simp only [Option.map_some'] at h; cases h
        obtain ⟨hlt, heq⟩ := ih k hk
        refine ⟨by simp; omega, ?_⟩
        unfold addRegionMerge
        rw [if_neg (fun hp => hm (decide_eq_true hp))]
        rw [heq]
        simp

def c4ops : List Op :=
  [Op.add ⟨⟨1, 2⟩, MemoryRegionType.Usable⟩,
   Op.add ⟨⟨3, 4⟩, MemoryRegionType.Kernel⟩]

def c4map : MemoryMap := (applyOps MemoryMap.new c4ops).getD MemoryMap.new

def c4res : MemoryMap :=
  (c4map.add_region ⟨⟨2, 5⟩, MemoryRegionType.Usable⟩).getD MemoryMap.new

/-- C4 counterexample: on the map `[Usable [1,2), Kernel [3,4)]` the last
entry (`Kernel [3,4)`) does not have the same kind as the added region
`Usable [2,5)`, so by the claim the region would be appended and
`next_entry_index` incremented to 3; instead `add_region` merges with the
first entry, extending it to `Usable [1,5)` and leaving
`next_entry_index = 2`. -/
theorem c4_counterexample :
    applyOps MemoryMap.new c4ops = some c4map
    ∧ c4map.next_entry_index = 2
    ∧ c4map.entries.getD 0 MemoryRegion.empty = ⟨⟨1, 2⟩, MemoryRegionType.Usable⟩
    ∧ c4map.entries.getD 1 MemoryRegion.empty = ⟨⟨3, 4⟩, MemoryRegionType.Kernel⟩
    ∧ (c4map.entries.getD 1 MemoryRegion.empty).region_type ≠ MemoryRegionType.Usable
    ∧ (c4map.add_region ⟨⟨2, 5⟩, MemoryRegionType.Usable⟩).isSome = true
    ∧ c4res.next_entry_index = 2
    ∧ c4res.entries.getD 0 MemoryRegion.empty = ⟨⟨1, 5⟩, MemoryRegionType.Usable⟩
    ∧ c4res.entries.getD 1 MemoryRegion.empty = ⟨⟨3, 4⟩, MemoryRegionType.Kernel⟩ := by
  decide

/-- C4 (amended): `add_region(r)` merges exactly when some entry of the
64-slot backing array (the first such entry in array order, not necessarily
the last occupied one) has the same kind as `r` and its `end_frame_number`
lies within `[r.start_frame_number, r.end_frame_number]`; in that case only
that entry is extended to end at `r.end_frame_number`, and nothing is
appended.  Otherwise `r` is appended at `next_entry_index`, the index is
incremented and the map re-sorted (panic when the map is full).  In
particular S5 holds: adding Usable `[0x1000,0x2000)` then Usable
`[0x2000,0x3000)` to an empty map yields exactly one region, Usable
`[0x1000,0x3000)`. -/
theorem c4_amended (m : MemoryMap) (region : MemoryRegion) :
    (∀ i, mergeIdx m.entries region = some i →
      m.add_region region
        = some (MemoryMap.mk
            (m.entries.set i { m.entries.getD i MemoryRegion.empty with
              range := { (m.entries.getD i MemoryRegion.empty).range with
                end_frame_number := region.range.end_frame_number } })
            m.next_entry_index))
    ∧ (mergeIdx m.entries region = none → m.next_entry_index < 64 →
      m.add_region region
        = some (MemoryMap.sort
            (MemoryMap.mk (m.entries.set m.next_entry_index region)
              (m.next_entry_index + 1))))
    ∧ (mergeIdx m.entries region = none → 64 ≤ m.next_entry_index →
      m.add_region region = none)
    ∧ ((applyOps MemoryMap.new
          [Op.add ⟨FrameRange.new 0x1000 0x2000, MemoryRegionType.Usable⟩,
           Op.add ⟨FrameRange.new 0x2000 0x3000, MemoryRegionType.Usable⟩]).map
        (fun mm => (mm.next_entry_index, mm.entries.getD 0 MemoryRegion.empty))
      = some (1, ⟨⟨1, 3⟩, MemoryRegionType.Usable⟩)) := by
  refine ⟨?_, ?_, ?_, by decide⟩
  · intro i hi
    obtain ⟨hlt, heq⟩ := addRegionMerge_of_mergeIdx m.entries region i hi
    unfold MemoryMap.add_region
    rw [heq]
  · intro hn hlt
    unfold MemoryMap.add_region
    rw [(mergeIdx_none_iff m.entries region).mp hn]
    rw [if_pos hlt]
  · intro hn hge
    unfold MemoryMap.add_region
    rw [(mergeIdx_none_iff m.entries region).mp hn]
    rw [if_neg (by omega)]

/-- Concrete instantiation of `c4_amended`: on the map of the
counterexample, `mergeIdx` finds index 0 and `add_region` extends exactly
that entry. -/
theorem c4_amended_witness :
    mergeIdx c4map.entries ⟨⟨2, 5⟩, MemoryRegionType.Usable⟩ = some 0
    ∧ c4map.add_region ⟨⟨2, 5⟩, MemoryRegionType.Usable⟩
      = some (MemoryMap.mk
          (c4map.entries.set 0 { c4map.entries.getD 0 MemoryRegion.empty with
            range := { (c4map.entries.getD 0 MemoryRegion.empty).range with
              end_frame_number := (⟨⟨2, 5⟩, MemoryRegionType.Usable⟩ :
                MemoryRegion).range.end_frame_number } })
          c4map.next_entry_index) :=
  ⟨by decide,
    (c4_amended c4map ⟨⟨2, 5⟩, MemoryRegionType.Usable⟩).1 0 (by decide)⟩

/-! ### C3: covered-frames accounting for mark_allocated_region -/

theorem getD_set_ne (es : List MemoryRegion) (i k : Nat) (x d : MemoryRegion)
    (h : i ≠ k) : (es.set i x).getD k d = es.getD k d := by
  induction es generalizing i k with
  | nil => simp
  | cons e tl ih =>
    cases i with
    | zero =>
      cases k with
      | zero => omega
      | succ k => simp [List.getD]
    | succ i =>
      cases k with
      | zero => simp [List.getD]
      | succ k => simpa [List.getD] using ih i k (by omega)

theorem getD_set_self (es : List MemoryRegion) (k : Nat) (x d : MemoryRegion)
    (h : k < es.length) : (es.set k x).getD k d = x := by
  induction es generalizing k with
  | nil => simp at h
  | cons e tl ih =>
    cases k with
    | zero => simp [List.getD]
    | succ k => simpa [List.getD] using ih k (by simpa using h)

theorem mem_of_getD (es : List MemoryRegion) (k : Nat) (d : MemoryRegion)
    (h : k < es.length) : es.getD k d ∈ es := by
  rw [List.getD_eq_getElem _ _ h]
  exact List.getElem_mem h

theorem getD_of_mem (es : List MemoryRegion) (e d : MemoryRegion) (h : e ∈ es) :
    ∃ k, k < es.length ∧ es.getD k d = e := by
  obtain ⟨⟨k, hk⟩, hget⟩ := List.mem_iff_get.mp h
  exact ⟨k, hk, by rw [List.getD_eq_getElem _ _ hk]; simpa using hget⟩

theorem coveredL_perm {es1 es2 : List MemoryRegion} (h : es1.Perm es2) (f : Nat) :
    coveredL es1 f = coveredL es2 f := by
  unfold coveredL
  rw [Bool.eq_iff_iff]
  simp only [List.any_eq_true]
  constructor
  · rintro ⟨e, he, hp⟩; exact ⟨e, h.mem_iff.mp he, hp⟩
  · rintro ⟨e, he, hp⟩; exact ⟨e, h.mem_iff.mpr he, hp⟩

theorem coveredL_cons (e : MemoryRegion) (es : List MemoryRegion) (f : Nat) :
    coveredL (e :: es) f = (inRange e f || coveredL es f) := by
  simp [coveredL]

theorem coveredL_split (es : List MemoryRegion) (i : Nat) (f : Nat)
    (hi : i < es.length) :
    coveredL es f
      = (coveredL (es.take i) f || inRange (es.getD i MemoryRegion.empty) f
          || coveredL (es.drop (i + 1)) f) := by
  induction es generalizing i with
  | nil => simp at hi
  | cons e tl ih =>
    cases i with
    | zero => simp [coveredL_cons, coveredL, List.getD]
    | succ i =>
      have hlt : i < tl.length := by simpa using hi
      rw [List.take_succ_cons, List.drop_succ_cons]
      rw [coveredL_cons, coveredL_cons, ih i hlt]
      show (inRange e f
          || (coveredL (tl.take i) f || inRange (tl.getD i MemoryRegion.empty) f
              || coveredL (tl.drop (i + 1)) f))
        = ((inRange e f || coveredL (tl.take i) f)
            || inRange ((e :: tl).getD (i + 1) MemoryRegion.empty) f
            || coveredL (tl.drop (i + 1)) f)
      have : (e :: tl).getD (i + 1) MemoryRegion.empty = tl.getD i MemoryRegion.empty := by
        simp [List.getD]
      rw [this]
      cases inRange e f <;> cases coveredL (tl.take i) f <;>
        cases inRange (tl.getD i MemoryRegion.empty) f <;>
        cases coveredL (tl.drop (i + 1)) f <;> rfl

theorem take_set_eq (es : List MemoryRegion) (i : Nat) (x : MemoryRegion) :
    (es.set i x).take i = es.take i := by
  induction es generalizing i with
  | nil => simp
  | cons e tl ih =>
    cases i with
    | zero => simp
    | succ i => simp [ih i]

theorem drop_set_eq (es : List MemoryRegion) (i : Nat) (x : MemoryRegion) :
    (es.set i x).drop (i + 1) = es.drop (i + 1) := by
  induction es generalizing i with
  | nil => simp
  | cons e tl ih =>
    cases i with
    | zero => simp
    | succ i => simp [ih i]

theorem coveredL_set (es : List MemoryRegion) (i : Nat) (x : MemoryRegion) (f : Nat)
    (hi : i < es.length) :
    coveredL (es.set i x) f
      = (coveredL (es.take i) f || inRange x f || coveredL (es.drop (i + 1)) f) := by
  have hlen : i < (es.set i x).length := by simpa using hi
  rw [coveredL_split (es.set i x) i f hlen]
  rw [getD_set_self es i x MemoryRegion.empty hi]
  rw [take_set_eq, drop_set_eq]

theorem inRange_empty (f : Nat) : inRange MemoryRegion.empty f = false := by
  simp [inRange, MemoryRegion.empty]

theorem coveredL_set_of_default (es : List MemoryRegion) (n : Nat) (x : MemoryRegion)
    (f : Nat) (hn : n < es.length)
    (hd : es.getD n MemoryRegion.empty = MemoryRegion.empty) :
    coveredL (es.set n x) f = (coveredL es f || inRange x f) := by
  rw [coveredL_set es n x f hn, coveredL_split es n f hn, hd, inRange_empty]
  cases coveredL (es.take n) f <;> cases inRange x f <;>
    cases coveredL (es.drop (n + 1)) f <;> rfl

/-- When the first matching entry starts no later than the added region, the
merge pass accounts exactly for the added region's frames. -/
theorem addRegionMerge_covered (es : List MemoryRegion) (x : MemoryRegion)
    (es2 : List MemoryRegion) (h : addRegionMerge es x = some es2)
    (hτ : x.region_type ≠ MemoryRegionType.Empty)
    (hmatch : ∀ e ∈ es, e.region_type = x.region_type →
      x.range.start_frame_number ≤ e.range.end_frame_number →
      e.range.end_frame_number ≤ x.range.end_frame_number →
      e.range.start_frame_number ≤ x.range.start_frame_number)
    (f : Nat) : coveredL es2 f = (coveredL es f || inRange x f) := by
  induction es generalizing es2 with
  | nil => simp [addRegionMerge] at h
  | cons e tl ih =>
    unfold addRegionMerge at h
    split_ifs at h with hc
    · cases h
      obtain ⟨ht, hs, he⟩ := hc
      have hst : e.range.start_frame_number ≤ x.range.start_frame_number :=
        hmatch e (by simp) ht hs he
      rw [coveredL_cons, coveredL_cons]
      have hpoint : inRange { e with range := { e.range with
            end_frame_number := x.range.end_frame_number } } f
          = (inRange e f || inRange x f) := by
        rw [Bool.eq_iff_iff]
        simp [inRange, ht, hτ]
        omega
      rw [hpoint]
      cases inRange e f <;> cases inRange x f <;> cases coveredL tl f <;> rfl
    · cases hm : addRegionMerge tl x with
      | none => rw [hm] at h; cases h
      | some tl2 =>
        rw [hm] at h; cases h
        rw [coveredL_cons, coveredL_cons]
        rw [ih tl2 hm (fun e2 he2 => hmatch e2 (by simp [he2]))]
        cases inRange e f <;> cases coveredL tl f <;> cases inRange x f <;> rfl

/-- If no slot of the backing array satisfies the merge condition, the merge
pass fails and `add_region` falls through to the append path. -/
theorem addRegionMerge_none_of_pos (es : List MemoryRegion) (x : MemoryRegion)
    (h : ∀ k, k < es.length → mergeMatch (es.getD k MemoryRegion.empty) x = false) :
    addRegionMerge es x = none := by
  induction es with
  | nil => rfl
  | cons e tl ih =>
    unfold addRegionMerge
    have h0 := h 0 (by simp)
    simp only [List.getD] at h0
    rw [if_neg (by simpa [mergeMatch] using h0)]
    rw [ih (fun k hk => by simpa [List.getD] using h (k + 1) (by simpa using hk))]

theorem firstEmptyIdx_at (es : List MemoryRegion) (i : Nat)
    (h : firstEmptyIdx es = some i) :
    (es.getD i MemoryRegion.empty).range.is_empty = true := by
  induction es generalizing i with
  | nil => simp [firstEmptyIdx] at h
  | cons e tl ih =>
    unfold firstEmptyIdx at h
    split_ifs at h with hc
    · cases h; simpa [List.getD] using hc
    · cases hm : firstEmptyIdx tl with
      | none => rw [hm] at h; cases h
      | some k =>
        rw [hm] at h; simp only [Option.map_some'] at h; cases h
        simpa [List.getD] using ih k hm

theorem firstEmptyIdx_isSome_of_mem (es : List MemoryRegion) (e : MemoryRegion)
    (he : e ∈ es) (hemp : e.range.is_empty = true) :
    ∃ i, firstEmptyIdx es = some i := by
  cases hf : firstEmptyIdx es with
  | some i => exact ⟨i, rfl⟩
  | none => rw [firstEmptyIdx_none es hf e he] at hemp; cases hemp

/-- The well-formedness facts the C3 proof carries along: 64 entries, the
head `[0, next_entry_index)` made of nonempty ranges, and every tail slot
still the pristine `MemoryRegion::empty()`. -/
def MemoryMap.good (m : MemoryMap) : Prop :=
  m.entries.length = 64
  ∧ m.next_entry_index ≤ 64
  ∧ (∀ k, m.next_entry_index ≤ k → k < 64 →
      m.entries.getD k MemoryRegion.empty = MemoryRegion.empty)
  ∧ (∀ k, k < m.next_entry_index →
      (m.entries.getD k MemoryRegion.empty).range.is_empty = false)

theorem good_empty_mem (m : MemoryMap) (hg : m.good) (e : MemoryRegion)
    (he : e ∈ m.entries) (hemp : e.range.is_empty = true) : e = MemoryRegion.empty := by
  obtain ⟨hlen, hnext, htail, hhead⟩ := hg
  obtain ⟨k, hk, hget⟩ := getD_of_mem m.entries e MemoryRegion.empty he
  by_cases hkn : k < m.next_entry_index
  · have h2 := hhead k hkn
    rw [hget, hemp] at h2
    cases h2
  · rw [← hget]; exact htail k (by omega) (by omega)

theorem sort_good_full (m : MemoryMap) (hlen : m.entries.length = 64)
    (hnext : m.next_entry_index ≤ 64)
    (hall : ∀ e ∈ m.entries, e.range.is_empty = true → e = MemoryRegion.empty)
    (e0 : MemoryRegion) (he0 : e0 ∈ m.entries) (hemp0 : e0.range.is_empty = true) :
    m.sort.good ∧ m.sort.next_entry_index < 64 := by
  have hperm : (List.insertionSort RLe m.entries).Perm m.entries :=
    List.perm_insertionSort RLe m.entries
  have hlen2 : (List.insertionSort RLe m.entries).length = 64 := by
    rw [List.length_insertionSort]; exact hlen
  obtain ⟨i, hf⟩ := firstEmptyIdx_isSome_of_mem (List.insertionSort RLe m.entries) e0
    (hperm.mem_iff.mpr he0) hemp0
  have hnext2 : m.sort.next_entry_index = i := by
    show (match firstEmptyIdx (List.insertionSort RLe m.entries) with
      | some i => i
      | none => m.next_entry_index) = i
    rw [hf]
  have hi64 : i < 64 := by
    have := firstEmptyIdx_lt_length _ _ hf; omega
  have hsorted : List.Sorted RLe (List.insertionSort RLe m.entries) :=
    List.sorted_insertionSort RLe m.entries
  refine ⟨⟨by rw [sort_entries]; exact hlen2, by omega, ?_, ?_⟩, by omega⟩
  · intro k hk hk64
    rw [hnext2] at hk
    rw [sort_entries]
    have hklen : k < (List.insertionSort RLe m.entries).length := by omega
    have hkemp : ((List.insertionSort RLe m.entries).getD k
        MemoryRegion.empty).range.is_empty = true := by
      by_cases hki : k = i
      · rw [hki]; exact firstEmptyIdx_at _ _ hf
      · have hilen : i < (List.insertionSort RLe m.entries).length := by omega
        have hrle : RLe ((List.insertionSort RLe m.entries).get ⟨i, hilen⟩)
            ((List.insertionSort RLe m.entries).get ⟨k, hklen⟩) :=
          List.pairwise_iff_get.mp hsorted ⟨i, hilen⟩ ⟨k, hklen⟩ (by simp; omega)
        have hie := firstEmptyIdx_at _ _ hf
        rw [List.getD_eq_getElem _ _ hilen] at hie
        rw [List.getD_eq_getElem _ _ hklen]
        simp only [List.get_eq_getElem] at hrle
        rw [rle_iff] at hrle
        rcases hrle with ⟨_, h2⟩ | ⟨h1, _⟩
        · exact h2
        · rw [hie] at h1; cases h1
    exact hall _ (hperm.mem_iff.mp (mem_of_getD _ k _ (by omega))) hkemp
  · intro k hk
    rw [hnext2] at hk
    rw [sort_entries]
    exact firstEmptyIdx_before _ _ hf k hk

theorem add_region_ok (m : MemoryMap) (x : MemoryRegion)
    (hnext : m.next_entry_index < 64)
    (hlen : m.entries.length = 64)
    (hat : m.entries.getD m.next_entry_index MemoryRegion.empty = MemoryRegion.empty)
    (hτ : x.region_type ≠ MemoryRegionType.Empty)
    (hmatch : ∀ e ∈ m.entries, e.region_type = x.region_type →
      x.range.start_frame_number ≤ e.range.end_frame_number →
      e.range.end_frame_number ≤ x.range.end_frame_number →
      e.range.start_frame_number ≤ x.range.start_frame_number) :
    ∃ m2, m.add_region x = some m2
      ∧ ∀ f, m2.covered f = (m.covered f || inRange x f) := by
  cases hm : addRegionMerge m.entries x with
  | some es2 =>
    refine ⟨⟨es2, m.next_entry_index⟩, ?_, ?_⟩
    · unfold MemoryMap.add_region; rw [hm]
    · intro f
      exact addRegionMerge_covered m.entries x es2 hm hτ hmatch f
  | none =>
    refine ⟨MemoryMap.sort
        ⟨m.entries.set m.next_entry_index x, m.next_entry_index + 1⟩, ?_, ?_⟩
    · unfold MemoryMap.add_region; rw [hm, if_pos hnext]
    · intro f
      show coveredL (List.insertionSort RLe
        (m.entries.set m.next_entry_index x)) f = (coveredL m.entries f || inRange x f)
      rw [coveredL_perm (List.perm_insertionSort RLe _) f]
      exact coveredL_set_of_default m.entries m.next_entry_index x f (by omega) hat

theorem add_region_append_ok (m : MemoryMap) (x : MemoryRegion)
    (hg : m.good) (hnext1 : m.next_entry_index + 1 < 64)
    (hnomerge : addRegionMerge m.entries x = none)
    (hxne : x.range.is_empty = false) :
    ∃ m2, m.add_region x = some m2
      ∧ (∀ f, m2.covered f = (m.covered f || inRange x f))
      ∧ m2.good ∧ m2.next_entry_index < 64
      ∧ (∀ e ∈ m2.entries, e = x ∨ e ∈ m.entries) := by
  obtain ⟨hlen, hnx, htail, hhead⟩ := hg
  have hlenx : (m.entries.set m.next_entry_index x).length = 64 := by
    rw [List.length_set]; exact hlen
  have hallx : ∀ e ∈ m.entries.set m.next_entry_index x,
      e.range.is_empty = true → e = MemoryRegion.empty := by
    intro e he hemp
    rcases List.mem_or_eq_of_mem_set he with he2 | rfl
    · exact good_empty_mem m ⟨hlen, hnx, htail, hhead⟩ e he2 hemp
    · rw [hxne] at hemp; cases hemp
  have he0get : (m.entries.set m.next_entry_index x).getD
      (m.next_entry_index + 1) MemoryRegion.empty = MemoryRegion.empty := by
    rw [getD_set_ne _ _ _ _ _ (by omega)]
    exact htail _ (by omega) (by omega)
  have he0 : MemoryRegion.empty ∈ m.entries.set m.next_entry_index x := by
    rw [← he0get]
    exact mem_of_getD _ _ _ (by omega)
  have hemp0 : MemoryRegion.empty.range.is_empty = true := rfl
  obtain ⟨hgood2, hlt2⟩ := sort_good_full
    ⟨m.entries.set m.next_entry_index x, m.next_entry_index + 1⟩
    hlenx (by show m.next_entry_index + 1 ≤ 64; omega) hallx
    MemoryRegion.empty he0 hemp0
  refine ⟨_, ?_, ?_, hgood2, hlt2, ?_⟩
  · unfold MemoryMap.add_region; rw [hnomerge, if_pos (by omega)]
  · intro f
    show coveredL (List.insertionSort RLe
      (m.entries.set m.next_entry_index x)) f = (coveredL m.entries f || inRange x f)
    rw [coveredL_perm (List.perm_insertionSort RLe _) f]
    exact coveredL_set_of_default m.entries m.next_entry_index x f (by omega)
      (htail _ le_rfl (by omega))
  · intro e he
    have he2 : e ∈ m.entries.set m.next_entry_index x :=
      (List.perm_insertionSort RLe _).mem_iff.mp he
    rcases List.mem_or_eq_of_mem_set he2 with he3 | rfl
    · exact Or.inr he3
    · exact Or.inl rfl

/-- Any entry of a well-formed map whose `mark` target `region` sits inside
the Usable entry `j` satisfies the side condition of
`addRegionMerge_covered` for `region` itself. -/
theorem hmatch_from_entries (m : MemoryMap) (region : MemoryRegion) (j : Nat)
    (hlen : m.entries.length = 64)
    (htail : ∀ k, m.next_entry_index ≤ k → k < 64 →
      m.entries.getD k MemoryRegion.empty = MemoryRegion.empty)
    (hproper : ∀ k, k < m.next_entry_index →
      (m.entries.getD k MemoryRegion.empty).range.start_frame_number
        < (m.entries.getD k MemoryRegion.empty).range.end_frame_number)
    (hdisj : ∀ k, k < m.next_entry_index → k ≠ j →
      (m.entries.getD k MemoryRegion.empty).range.end_frame_number
        ≤ (m.entries.getD j MemoryRegion.empty).range.start_frame_number
      ∨ (m.entries.getD j MemoryRegion.empty).range.end_frame_number
        ≤ (m.entries.getD k MemoryRegion.empty).range.start_frame_number)
    (hτ : region.region_type ≠ MemoryRegionType.Empty)
    (hτu : region.region_type ≠ MemoryRegionType.Usable)
    (hsub1 : (m.entries.getD j MemoryRegion.empty).range.start_frame_number
        ≤ region.range.start_frame_number)
    (hsub2 : region.range.end_frame_number
        ≤ (m.entries.getD j MemoryRegion.empty).range.end_frame_number)
    (husable : (m.entries.getD j MemoryRegion.empty).region_type
        = MemoryRegionType.Usable) :
    ∀ e ∈ m.entries, e.region_type = region.region_type →
      region.range.start_frame_number ≤ e.range.end_frame_number →
      e.range.end_frame_number ≤ region.range.end_frame_number →
      e.range.start_frame_number ≤ region.range.start_frame_number := by
  intro e he hty h1 h2
  obtain ⟨k, hk, hget⟩ := getD_of_mem m.entries e MemoryRegion.empty he
  rw [hlen] at hk
  by_cases hkn : k < m.next_entry_index
  · by_cases hkj : k = j
    · subst hkj
      rw [hget] at husable
      rw [hty] at husable
      exact absurd husable hτu
    · have hd := hdisj k hkn hkj
      have hp := hproper k hkn
      rw [hget] at hd hp
      rcases hd with hd | hd
      · omega
      · omega
  · have he2 : e = MemoryRegion.empty := by
      rw [← hget]; exact htail k (by omega) (by omega)
    rw [he2] at hty
    exact absurd hty.symm hτ

theorem markFinish_ok (m : MemoryMap) (region : MemoryRegion) (j : Nat)
    (hlen : m.entries.length = 64)
    (hnx : m.next_entry_index ≤ 62)
    (htail : ∀ k, m.next_entry_index ≤ k → k < 64 →
      m.entries.getD k MemoryRegion.empty = MemoryRegion.empty)
    (hproper : ∀ k, k < m.next_entry_index →
      (m.entries.getD k MemoryRegion.empty).range.start_frame_number
        < (m.entries.getD k MemoryRegion.empty).range.end_frame_number)
    (hdisj : ∀ k, k < m.next_entry_index → k ≠ j →
      (m.entries.getD k MemoryRegion.empty).range.end_frame_number
        ≤ (m.entries.getD j MemoryRegion.empty).range.start_frame_number
      ∨ (m.entries.getD j MemoryRegion.empty).range.end_frame_number
        ≤ (m.entries.getD k MemoryRegion.empty).range.start_frame_number)
    (hτ : region.region_type ≠ MemoryRegionType.Empty)
    (hτu : region.region_type ≠ MemoryRegionType.Usable)
    (hne : region.range.start_frame_number < region.range.end_frame_number)
    (hj : j < m.next_entry_index)
    (hsub1 : (m.entries.getD j MemoryRegion.empty).range.start_frame_number
        ≤ region.range.start_frame_number)
    (hsub2 : region.range.end_frame_number
        ≤ (m.entries.getD j MemoryRegion.empty).range.end_frame_number)
    (husable : (m.entries.getD j MemoryRegion.empty).region_type
        = MemoryRegionType.Usable) :
    ∃ m2, markFinish m region j = some m2 ∧ ∀ f, m2.covered f = m.covered f := by
  have hj64 : j < 64 := by omega
  have hjlen : j < m.entries.length := by omega
  have hmatchR := hmatch_from_entries m region j hlen htail hproper hdisj
    hτ hτu hsub1 hsub2 husable
  have hatnext : ∀ x : MemoryRegion, (m.entries.set j x).getD
      m.next_entry_index MemoryRegion.empty = MemoryRegion.empty := by
    intro x
    rw [getD_set_ne _ _ _ _ _ (by omega)]
    exact htail _ le_rfl (by omega)
  have hsplitm : ∀ f, m.covered f
      = (coveredL (m.entries.take j) f
          || inRange (m.entries.getD j MemoryRegion.empty) f
          || coveredL (m.entries.drop (j + 1)) f) :=
    fun f => coveredL_split m.entries j f hjlen
  have hsetm : ∀ (x : MemoryRegion) (f : Nat), coveredL (m.entries.set j x) f
      = (coveredL (m.entries.take j) f || inRange x f
          || coveredL (m.entries.drop (j + 1)) f) :=
    fun x f => coveredL_set m.entries j x f hjlen
  have hmatchSet : ∀ (x : MemoryRegion), (∀ e ∈ m.entries.set j x,
      e.region_type = MemoryRegionType.Usable →
      e.region_type = region.region_type →
      region.range.start_frame_number ≤ e.range.end_frame_number →
      e.range.end_frame_number ≤ region.range.end_frame_number →
      e.range.start_frame_number ≤ region.range.start_frame_number) := by
    intro x e he hu hty
    rw [hu] at hty
    exact absurd hty.symm hτu
  unfold markFinish
  rw [if_neg (not_not_intro husable)]
  by_cases h2 : region.range.start_frame_number
      = (m.entries.getD j MemoryRegion.empty).range.start_frame_number
  · rw [if_pos h2]
    by_cases h3 : region.range.end_frame_number
        < (m.entries.getD j MemoryRegion.empty).range.end_frame_number
    · -- Equal start, region shorter: shrink entry j, add region
      rw [if_pos h3]
      obtain ⟨m2, hadd, hcov⟩ := add_region_ok
        (MemoryMap.mk (m.entries.set j { m.entries.getD j MemoryRegion.empty with
          range := { (m.entries.getD j MemoryRegion.empty).range with
            start_frame_number := region.range.end_frame_number } })
          m.next_entry_index)
        region (by show m.next_entry_index < 64; omega) (by simpa using hlen)
        (hatnext _) hτ
        (by
          intro e he hty hc1 hc2
          rcases List.mem_or_eq_of_mem_set he with he2 | rfl
          · exact hmatchR e he2 hty hc1 hc2
          · have hty2 : (m.entries.getD j MemoryRegion.empty).region_type
                = region.region_type := hty
            exact absurd (hty2.symm.trans husable) hτu)
      refine ⟨m2, hadd, ?_⟩
      intro f
      rw [hcov f]
      show (coveredL (m.entries.set j _) f || inRange region f) = m.covered f
      rw [hsetm _ f, hsplitm f]
      have hjne : (m.entries.getD j MemoryRegion.empty).region_type
          ≠ MemoryRegionType.Empty := by
        rw [husable]; intro hcon; cases hcon
      have hpoint : (inRange { m.entries.getD j MemoryRegion.empty with
          range := { (m.entries.getD j MemoryRegion.empty).range with
            start_frame_number := region.range.end_frame_number } } f
          || inRange region f)
          = inRange (m.entries.getD j MemoryRegion.empty) f := by
        rw [Bool.eq_iff_iff]
        simp only [Bool.or_eq_true, inRange, decide_eq_true_eq]
        constructor
        · rintro (⟨-, ha, hb⟩ | ⟨-, ha, hb⟩) <;> exact ⟨hjne, by omega, by omega⟩
        · rintro ⟨-, ha, hb⟩
          by_cases hf : f < region.range.end_frame_number
          · exact Or.inr ⟨hτ, by omega, by omega⟩
          · exact Or.inl ⟨hjne, by omega, by omega⟩
      rw [← hpoint]
      cases coveredL (m.entries.take j) f <;>
        cases coveredL (m.entries.drop (j + 1)) f <;>
        cases inRange { m.entries.getD j MemoryRegion.empty with
          range := { (m.entries.getD j MemoryRegion.empty).range with
            start_frame_number := region.range.end_frame_number } } f <;>
        cases inRange region f <;> rfl
    · -- Equal start, region at least as long: replace entry j by region
      rw [if_neg h3]
      refine ⟨_, rfl, ?_⟩
      intro f
      show coveredL (m.entries.set j region) f = m.covered f
      rw [hsetm _ f, hsplitm f]
      have hjne : (m.entries.getD j MemoryRegion.empty).region_type
          ≠ MemoryRegionType.Empty := by
        rw [husable]; intro hcon; cases hcon
      have hpoint : inRange region f
          = inRange (m.entries.getD j MemoryRegion.empty) f := by
        rw [Bool.eq_iff_iff]
        simp only [inRange, decide_eq_true_eq]
        constructor
        · rintro ⟨-, ha, hb⟩
          exact ⟨hjne, by omega, by omega⟩
        · rintro ⟨-, ha, hb⟩
          exact ⟨hτ, by omega, by omega⟩
      rw [hpoint]
  · rw [if_neg h2]
    by_cases h4 : (m.entries.getD j MemoryRegion.empty).range.start_frame_number
        < region.range.start_frame_number
    · rw [if_pos h4]
      by_cases h5 : region.range.end_frame_number
          < (m.entries.getD j MemoryRegion.empty).range.end_frame_number
      · -- region strictly inside entry j: split into front, region, back
        rw [if_pos h5]
        have hnomergeB : addRegionMerge
            (m.entries.set j { m.entries.getD j MemoryRegion.empty with
              range := { (m.entries.getD j MemoryRegion.empty).range with
                end_frame_number := region.range.start_frame_number } })
            { m.entries.getD j MemoryRegion.empty with
              range := { (m.entries.getD j MemoryRegion.empty).range with
                start_frame_number := region.range.end_frame_number } } = none := by
          apply addRegionMerge_none_of_pos
          intro k hk
          rw [List.length_set, hlen] at hk
          by_cases hkj : k = j
          · subst hkj
            rw [getD_set_self _ _ _ _ (by omega)]
            simp only [mergeMatch, decide_eq_false_iff_not]
            rintro ⟨-, hb1, -⟩
            have hb1a : region.range.end_frame_number
                ≤ region.range.start_frame_number := hb1
            omega
          · rw [getD_set_ne _ _ _ _ _ (fun hh => hkj hh.symm)]
            by_cases hkn : k < m.next_entry_index
            · simp only [mergeMatch, decide_eq_false_iff_not]
              rintro ⟨-, hb1, hb2⟩
              have hb1a : region.range.end_frame_number
                  ≤ (m.entries.getD k MemoryRegion.empty).range.end_frame_number := hb1
              have hb2a : (m.entries.getD k MemoryRegion.empty).range.end_frame_number
                  ≤ (m.entries.getD j MemoryRegion.empty).range.end_frame_number := hb2
              have hd := hdisj k hkn hkj
              have hp := hproper k hkn
              omega
            · rw [htail k (by omega) (by omega)]
              simp only [mergeMatch, decide_eq_false_iff_not]
              rintro ⟨hty, -, -⟩
              have hty2 : MemoryRegionType.Empty
                  = (m.entries.getD j MemoryRegion.empty).region_type := hty
              rw [husable] at hty2
              cases hty2
        have hgood1 : (MemoryMap.mk
            (m.entries.set j { m.entries.getD j MemoryRegion.empty with
              range := { (m.entries.getD j MemoryRegion.empty).range with
                end_frame_number := region.range.start_frame_number } })
            m.next_entry_index).good := by
          refine ⟨by simpa using hlen, by show m.next_entry_index ≤ 64; omega, ?_, ?_⟩
          · intro k hk hk64
            have hk2 : m.next_entry_index ≤ k := hk
            show (m.entries.set j { m.entries.getD j MemoryRegion.empty with
              range := { (m.entries.getD j MemoryRegion.empty).range with
                end_frame_number := region.range.start_frame_number } }).getD k
                MemoryRegion.empty = MemoryRegion.empty
            rw [getD_set_ne _ _ _ _ _ (by omega)]
            exact htail k hk2 hk64
          · intro k hk
            have hk2 : k < m.next_entry_index := hk
            show ((m.entries.set j { m.entries.getD j MemoryRegion.empty with
              range := { (m.entries.getD j MemoryRegion.empty).range with
                end_frame_number := region.range.start_frame_number } }).getD k
                MemoryRegion.empty).range.is_empty = false
            by_cases hkj : k = j
            · rw [hkj, getD_set_self _ _ _ _ (by omega)]
              show ((m.entries.getD j MemoryRegion.empty).range.start_frame_number
                == region.range.start_frame_number) = false
              simp only [beq_eq_false_iff_ne]
              omega
            · rw [getD_set_ne _ _ _ _ _ (fun hh => hkj hh.symm)]
              have hp := hproper k hk2
              simp only [FrameRange.is_empty, beq_eq_false_iff_ne]
              omega
        obtain ⟨m2, hadd2, hcov2, hgood2, hlt2, hmem2⟩ := add_region_append_ok
          (MemoryMap.mk
            (m.entries.set j { m.entries.getD j MemoryRegion.empty with
              range := { (m.entries.getD j MemoryRegion.empty).range with
                end_frame_number := region.range.start_frame_number } })
            m.next_entry_index)
          { m.entries.getD j MemoryRegion.empty with
            range := { (m.entries.getD j MemoryRegion.empty).range with
              start_frame_number := region.range.end_frame_number } }
          hgood1 (by show m.next_entry_index + 1 < 64; omega) hnomergeB
          (by
            show (region.range.end_frame_number
              == (m.entries.getD j MemoryRegion.empty).range.end_frame_number) = false
            simp only [beq_eq_false_iff_ne]
            omega)
        obtain ⟨hg2len, hg2nx, hg2tail, hg2head⟩ := hgood2
        obtain ⟨m3, hadd3, hcov3⟩ := add_region_ok m2 region hlt2 hg2len
          (hg2tail _ le_rfl hlt2) hτ
          (by
            intro e he hty hc1 hc2
            rcases hmem2 e he with rfl | he2
            · have hty2 : (m.entries.getD j MemoryRegion.empty).region_type
                  = region.region_type := hty
              exact absurd (hty2.symm.trans husable) hτu
            · rcases List.mem_or_eq_of_mem_set he2 with he3 | rfl
              · exact hmatchR e he3 hty hc1 hc2
              · have hty2 : (m.entries.getD j MemoryRegion.empty).region_type
                    = region.region_type := hty
                exact absurd (hty2.symm.trans husable) hτu)
        refine ⟨m3, ?_, ?_⟩
        · rw [hadd2]
          exact hadd3
        · intro f
          rw [hcov3 f, hcov2 f]
          show ((coveredL (m.entries.set j _) f || inRange _ f) || inRange region f)
            = m.covered f
          rw [hsetm _ f, hsplitm f]
          have hjne : (m.entries.getD j MemoryRegion.empty).region_type
              ≠ MemoryRegionType.Empty := by
            rw [husable]; intro hcon; cases hcon
          have hpoint : (inRange { m.entries.getD j MemoryRegion.empty with
              range := { (m.entries.getD j MemoryRegion.empty).range with
                end_frame_number := region.range.start_frame_number } } f
              || inRange { m.entries.getD j MemoryRegion.empty with
                range := { (m.entries.getD j MemoryRegion.empty).range with
                  start_frame_number := region.range.end_frame_number } } f
              || inRange region f)
              = inRange (m.entries.getD j MemoryRegion.empty) f := by
            rw [Bool.eq_iff_iff]
            simp only [Bool.or_eq_true, inRange, decide_eq_true_eq]
            constructor
            · rintro ((⟨-, ha, hb⟩ | ⟨-, ha, hb⟩) | ⟨-, ha, hb⟩) <;>
                exact ⟨hjne, by omega, by omega⟩
            · rintro ⟨-, ha, hb⟩
              by_cases hf1 : f < region.range.start_frame_number
              · exact Or.inl (Or.inl ⟨hjne, by omega, by omega⟩)
              · by_cases hf2 : region.range.end_frame_number ≤ f
                · exact Or.inl (Or.inr ⟨hjne, by omega, by omega⟩)
                · exact Or.inr ⟨hτ, by omega, by omega⟩
          rw [← hpoint]
          cases coveredL (m.entries.take j) f <;>
            cases coveredL (m.entries.drop (j + 1)) f <;>
            cases inRange { m.entries.getD j MemoryRegion.empty with
              range := { (m.entries.getD j MemoryRegion.empty).range with
                end_frame_number := region.range.start_frame_number } } f <;>
            cases inRange { m.entries.getD j MemoryRegion.empty with
              range := { (m.entries.getD j MemoryRegion.empty).range with
                start_frame_number := region.range.end_frame_number } } f <;>
            cases inRange region f <;> rfl
      · -- region covers the tail of entry j: truncate entry j, add region
        rw [if_neg h5]
        obtain ⟨m2, hadd, hcov⟩ := add_region_ok
          (MemoryMap.mk (m.entries.set j { m.entries.getD j MemoryRegion.empty with
            range := { (m.entries.getD j MemoryRegion.empty).range with
              end_frame_number := region.range.start_frame_number } })
            m.next_entry_index)
          region (by show m.next_entry_index < 64; omega) (by simpa using hlen)
          (hatnext _) hτ
          (by
            intro e he hty hc1 hc2
            rcases List.mem_or_eq_of_mem_set he with he2 | rfl
            · exact hmatchR e he2 hty hc1 hc2
            · have hty2 : (m.entries.getD j MemoryRegion.empty).region_type
                  = region.region_type := hty
              exact absurd (hty2.symm.trans husable) hτu)
        refine ⟨m2, hadd, ?_⟩
        intro f
        rw [hcov f]
        show (coveredL (m.entries.set j _) f || inRange region f) = m.covered f
        rw [hsetm _ f, hsplitm f]
        have hjne : (m.entries.getD j MemoryRegion.empty).region_type
            ≠ MemoryRegionType.Empty := by
          rw [husable]; intro hcon; cases hcon
        have hpoint : (inRange { m.entries.getD j MemoryRegion.empty with
            range := { (m.entries.getD j MemoryRegion.empty).range with
              end_frame_number := region.range.start_frame_number } } f
            || inRange region f)
            = inRange (m.entries.getD j MemoryRegion.empty) f := by
          rw [Bool.eq_iff_iff]
          simp only [Bool.or_eq_true, inRange, decide_eq_true_eq]
          constructor
          · rintro (⟨-, ha, hb⟩ | ⟨-, ha, hb⟩) <;> exact ⟨hjne, by omega, by omega⟩
          · rintro ⟨-, ha, hb⟩
            by_cases hf : f < region.range.start_frame_number
            · exact Or.inl ⟨hjne, by omega, by omega⟩
            · exact Or.inr ⟨hτ, by omega, by omega⟩
        rw [← hpoint]
        cases coveredL (m.entries.take j) f <;>
          cases coveredL (m.entries.drop (j + 1)) f <;>
          cases inRange { m.entries.getD j MemoryRegion.empty with
            range := { (m.entries.getD j MemoryRegion.empty).range with
              end_frame_number := region.range.start_frame_number } } f <;>
          cases inRange region f <;> rfl
    · -- the Ordering::Less arm is unreachable when region sits inside entry j
      exfalso
      omega

theorem markLoop_ok (m : MemoryMap) (region : MemoryRegion) (j : Nat)
    (hlen : m.entries.length = 64)
    (hnx : m.next_entry_index ≤ 62)
    (htail : ∀ k, m.next_entry_index ≤ k → k < 64 →
      m.entries.getD k MemoryRegion.empty = MemoryRegion.empty)
    (hproper : ∀ k, k < m.next_entry_index →
      (m.entries.getD k MemoryRegion.empty).range.start_frame_number
        < (m.entries.getD k MemoryRegion.empty).range.end_frame_number)
    (hdisj : ∀ k, k < m.next_entry_index → k ≠ j →
      (m.entries.getD k MemoryRegion.empty).range.end_frame_number
        ≤ (m.entries.getD j MemoryRegion.empty).range.start_frame_number
      ∨ (m.entries.getD j MemoryRegion.empty).range.end_frame_number
        ≤ (m.entries.getD k MemoryRegion.empty).range.start_frame_number)
    (hτ : region.region_type ≠ MemoryRegionType.Empty)
    (hne : region.range.start_frame_number < region.range.end_frame_number)
    (hj : j < m.next_entry_index)
    (hsub1 : (m.entries.getD j MemoryRegion.empty).range.start_frame_number
        ≤ region.range.start_frame_number)
    (hsub2 : region.range.end_frame_number
        ≤ (m.entries.getD j MemoryRegion.empty).range.end_frame_number)
    (hkind : (m.entries.getD j MemoryRegion.empty).region_type = MemoryRegionType.Usable
      ∨ (m.entries.getD j MemoryRegion.empty).region_type = region.region_type) :
    ∀ fuel i, i ≤ j → j < i + fuel →
    ∃ m2, markLoop m region i fuel = some m2 ∧ ∀ f, m2.covered f = m.covered f := by
  have hjlen : j < m.entries.length := by omega
  intro fuel
  induction fuel with
  | zero => intro i h1 h2; omega
  | succ fuel ih =>
    intro i hij hlt
    by_cases hieq : i = j
    · subst hieq
      unfold markLoop
      rw [if_pos (⟨hj, hjlen⟩ : _ ∧ _)]
      by_cases hty : (m.entries.getD i MemoryRegion.empty).region_type
          = region.region_type
      · rw [if_pos ⟨hty, hsub1, hsub2⟩]
        exact ⟨m, rfl, fun f => rfl⟩
      · have husable : (m.entries.getD i MemoryRegion.empty).region_type
            = MemoryRegionType.Usable := hkind.resolve_right hty
        have hτu : region.region_type ≠ MemoryRegionType.Usable := by
          intro hcon; apply hty; rw [husable, hcon]
        rw [if_neg (fun h => hty h.1)]
        have htrim : markTrim (m.entries.getD i MemoryRegion.empty) region = region := by
          unfold markTrim
          rw [if_neg (fun h => hty h.1)]
        rw [htrim]
        rw [if_neg (by omega), if_neg (by omega)]
        exact markFinish_ok m region i hlen hnx htail hproper hdisj hτ hτu hne hj
          hsub1 hsub2 husable
    · have hin : i < m.next_entry_index := by omega
      have hilen : i < m.entries.length := by omega
      have hd := hdisj i hin hieq
      have hp := hproper i hin
      unfold markLoop
      rw [if_pos (⟨hin, hilen⟩ : _ ∧ _)]
      rw [if_neg (fun h => by
        obtain ⟨-, hc1, hc2⟩ := h
        rcases hd with hd | hd <;> omega)]
      have htrim : markTrim (m.entries.getD i MemoryRegion.empty) region = region := by
        unfold markTrim
        rw [if_neg (fun h => by
          obtain ⟨-, hc1, hc2, -⟩ := h
          rcases hd with hd | hd <;> omega)]
      rw [htrim]
      rcases hd with hd | hd
      · rw [if_pos (by omega)]
        exact ih (i + 1) (by omega) (by omega)
      · rw [if_neg (by omega), if_pos (by omega)]
        exact ih (i + 1) (by omega) (by omega)

/-- C3 (amended): `mark_allocated_region(r)` preserves the union of frames
covered by the non-Empty regions — provided `r` is a nonempty non-Empty-kind
region contained in a single head entry of Usable kind (or of `r`'s own
kind), the head entries are pairwise disjoint proper ranges, the tail slots
are pristine, and at least two slots are free.  Without the containment
hypothesis the union can grow (see the counterexample). -/
theorem c3_amended (m : MemoryMap) (region : MemoryRegion) (j : Nat)
    (hlen : m.entries.length = 64)
    (hnx : m.next_entry_index ≤ 62)
    (htail : ∀ k, m.next_entry_index ≤ k → k < 64 →
      m.entries.getD k MemoryRegion.empty = MemoryRegion.empty)
    (hproper : ∀ k, k < m.next_entry_index →
      (m.entries.getD k MemoryRegion.empty).range.start_frame_number
        < (m.entries.getD k MemoryRegion.empty).range.end_frame_number)
    (hdisj : ∀ k, k < m.next_entry_index → k ≠ j →
      (m.entries.getD k MemoryRegion.empty).range.end_frame_number
        ≤ (m.entries.getD j MemoryRegion.empty).range.start_frame_number
      ∨ (m.entries.getD j MemoryRegion.empty).range.end_frame_number
        ≤ (m.entries.getD k MemoryRegion.empty).range.start_frame_number)
    (hτ : region.region_type ≠ MemoryRegionType.Empty)
    (hne : region.range.start_frame_number < region.range.end_frame_number)
    (hj : j < m.next_entry_index)
    (hsub1 : (m.entries.getD j MemoryRegion.empty).range.start_frame_number
        ≤ region.range.start_frame_number)
    (hsub2 : region.range.end_frame_number
        ≤ (m.entries.getD j MemoryRegion.empty).range.end_frame_number)
    (hkind : (m.entries.getD j MemoryRegion.empty).region_type = MemoryRegionType.Usable
      ∨ (m.entries.getD j MemoryRegion.empty).region_type = region.region_type) :
    ∃ m2, m.mark_allocated_region region = some m2
      ∧ ∀ f, m2.covered f = m.covered f :=
  markLoop_ok m region j hlen hnx htail hproper hdisj hτ hne hj hsub1 hsub2 hkind
    (m.next_entry_index + 1) 0 (by omega) (by omega)

def c3map : MemoryMap :=
  ⟨(⟨⟨0, 10⟩, MemoryRegionType.Usable⟩ : MemoryRegion)
    :: List.replicate 63 MemoryRegion.empty, 1⟩

/-- C3 counterexample: on the map holding the single region Usable `[0,10)`,
`mark_allocated_region(InUse [5,15))` returns normally, but frame 12 —
covered by no region before the call — is covered afterwards: the union of
covered frames grows from `[0,10)` to `[0,15)`. -/
theorem c3_counterexample :
    (c3map.mark_allocated_region ⟨⟨5, 15⟩, MemoryRegionType.InUse⟩).isSome = true
    ∧ c3map.covered 12 = false
    ∧ ((c3map.mark_allocated_region ⟨⟨5, 15⟩, MemoryRegionType.InUse⟩).getD
        MemoryMap.new).covered 12 = true := by decide

theorem getD_replicate (n k : Nat) (d : MemoryRegion) :
    (List.replicate n d).getD k d = d := by
  induction n generalizing k with
  | zero => simp [List.getD]
  | succ n ih =>
    cases k with
    | zero => simp [List.getD]
    | succ k => simpa [List.getD] using ih k

theorem c3_amended_witness :
    ∃ m2, c3map.mark_allocated_region ⟨⟨2, 4⟩, MemoryRegionType.InUse⟩ = some m2
      ∧ ∀ f, m2.covered f = c3map.covered f :=
  c3_amended c3map ⟨⟨2, 4⟩, MemoryRegionType.InUse⟩ 0
    (by decide) (by decide)
    (by
      intro k hk1 hk2
      match k, hk1 with
      | k + 1, _ =>
        show (List.replicate 63 MemoryRegion.empty).getD k MemoryRegion.empty
          = MemoryRegion.empty
        exact getD_replicate 63 k MemoryRegion.empty)
    (by
      intro k hk
      have hk1 : k < 1 := hk
      have hk0 : k = 0 := by omega
      subst hk0
      decide)
    (by
      intro k h1 h2
      have h1b : k < 1 := h1
      omega)
    (by decide) (by decide) (by decide) (by decide) (by decide) (by decide)

/-! ### C1: initial host-built page tables (kvmvm.rs setup_page_tables) -/

def PML4_START : Nat := 0x9000
def PDPTE_START : Nat := 0xA000
def PDE_START : Nat := 0xB000

/-- The `PageTables` struct of kvmvm.rs: three arrays of 512 8-byte entries,
written contiguously at guest-physical `PML4_START`. -/
structure PageTables where
  pml4t : Nat → Nat
  pml3t_ident : Nat → Nat
  pml2t_ident : Nat → Nat

/-- `KvmVm::setup_page_tables`: starting from the all-zero default, only
entry 0 of each table is written: `pml4t[0] = PDPTE_START | 0x7`,
`pml3t_ident[0] = PDE_START | 0x7`, `pml2t_ident[0] = 0x183`. -/
def setup_page_tables : PageTables :=
  { pml4t := fun i => if i = 0 then PDPTE_START ||| 0x7 else 0
    pml3t_ident := fun i => if i = 0 then PDE_START ||| 0x7 else 0
    pml2t_ident := fun i => if i = 0 then 0x183 else 0 }

/-- Guest memory as seen after `setup_page_tables` wrote the 12 KiB struct
at `PML4_START` (the pages were zero-filled fresh mmap pages before; only
the three tables matter to a page walk rooted there). -/
def memAfterSetup (addr : Nat) : Nat :=
  if PML4_START ≤ addr ∧ addr < PML4_START + 0x1000 then
    setup_page_tables.pml4t ((addr - PML4_START) / 8)
  else if PDPTE_START ≤ addr ∧ addr < PDPTE_START + 0x1000 then
    setup_page_tables.pml3t_ident ((addr - PDPTE_START) / 8)
  else if PDE_START ≤ addr ∧ addr < PDE_START + 0x1000 then
    setup_page_tables.pml2t_ident ((addr - PDE_START) / 8)
  else 0

def ptePresent (e : Nat) : Bool := e % 2 == 1

def pteAddr (e : Nat) : Nat := e / 4096 % 2 ^ 40 * 4096

def ptePS (e : Nat) : Bool := e / 128 % 2 == 1

def pteFlags (e : Nat) : Nat := e % 4096

/-- A 4-level x86-64 page walk over 8-byte little-endian entries, returning
`(physical address, leaf flag bits, leaf page size)`; PS leaves at the PDPT
(1 GiB) and PD (2 MiB) levels. -/
def pageWalk (mem : Nat → Nat) (cr3 a : Nat) : Option (Nat × Nat × Nat) :=
  let e4 := mem (cr3 + 8 * (a / 2 ^ 39 % 512))
  if ¬ ptePresent e4 then none else
  let e3 := mem (pteAddr e4 + 8 * (a / 2 ^ 30 % 512))
  if ¬ ptePresent e3 then none else
  if ptePS e3 then
    some (e3 / 2 ^ 30 % 2 ^ 22 * 2 ^ 30 + a % 2 ^ 30, pteFlags e3, 2 ^ 30)
  else
  let e2 := mem (pteAddr e3 + 8 * (a / 2 ^ 21 % 512))
  if ¬ ptePresent e2 then none else
  if ptePS e2 then
    some (e2 / 2 ^ 21 % 2 ^ 31 * 2 ^ 21 + a % 2 ^ 21, pteFlags e2, 2 ^ 21)
  else
  let e1 := mem (pteAddr e2 + 8 * (a / 2 ^ 12 % 512))
  if ¬ ptePresent e1 then none else
  some (pteAddr e1 + a % 2 ^ 12, pteFlags e1, 2 ^ 12)

/-- C1 counterexample: guest-physical 0x200000 (2 MiB) is below 1 GiB, yet
the walk through the tables written by `setup_page_tables` fails — only PD
entry 0 is populated, so just `[0, 2 MiB)` is identity-mapped. -/
theorem c1_counterexample :
    0x200000 < 2 ^ 30
    ∧ pageWalk memAfterSetup PML4_START 0x200000 = none := by decide

/-- C1 (amended): the three tables have only entry 0 populated (PML4 entry
0 = PDPT | P|RW|US, PDPT entry 0 = PD | P|RW|US, PD entry 0 = 0x183 =
P|RW|PS|G); for every guest-physical `a` below 2 MiB the 4-level walk from
`PML4_START` resolves `a` to itself through a 2 MiB leaf whose flag bits
are exactly 0x183 (P|RW|PS and additionally G, not bare P|RW|PS); for `a`
in `[2 MiB, 1 GiB)` the walk fails. -/
theorem c1_amended :
    (∀ i, 0 < i → i < 512 →
      setup_page_tables.pml4t i = 0
      ∧ setup_page_tables.pml3t_ident i = 0
      ∧ setup_page_tables.pml2t_ident i = 0)
    ∧ setup_page_tables.pml4t 0 = 0xA007
    ∧ setup_page_tables.pml3t_ident 0 = 0xB007
    ∧ setup_page_tables.pml2t_ident 0 = 0x183
    ∧ (∀ a, a < 2 ^ 21 →
        pageWalk memAfterSetup PML4_START a = some (a, 0x183, 2 ^ 21))
    ∧ (∀ a, 2 ^ 21 ≤ a → a < 2 ^ 30 →
        pageWalk memAfterSetup PML4_START a = none) := by
  have hm4 : memAfterSetup 0x9000 = 0xA007 := by decide
  have hm3 : memAfterSetup 0xA000 = 0xB007 := by decide
  have hm2 : memAfterSetup 0xB000 = 0x183 := by decide
  refine ⟨?_, by decide, by decide, by decide, ?_, ?_⟩
  · intro i h1 h2
    refine ⟨?_, ?_, ?_⟩ <;>
      · show (if i = 0 then _ else 0) = 0
        rw [if_neg (by omega)]
  · intro a ha
    have h39 : a / 2 ^ 39 % 512 = 0 := by rw [Nat.div_eq_of_lt (by omega)]
    have h30 : a / 2 ^ 30 % 512 = 0 := by rw [Nat.div_eq_of_lt (by omega)]
    have h21 : a / 2 ^ 21 % 512 = 0 := by rw [Nat.div_eq_of_lt (by omega)]
    have hmod : a % 2 ^ 21 = a := Nat.mod_eq_of_lt ha
    show pageWalk memAfterSetup 0x9000 a = some (a, 0x183, 2 ^ 21)
    unfold pageWalk
    rw [h39, h30, h21]
    norm_num [hm4, hm3, hm2, ptePresent, pteAddr, ptePS, pteFlags, hmod]
    omega
  · intro a ha1 ha2
    have h39 : a / 2 ^ 39 % 512 = 0 := by rw [Nat.div_eq_of_lt (by omega)]
    have h30 : a / 2 ^ 30 % 512 = 0 := by rw [Nat.div_eq_of_lt (by omega)]
    have hdivlt : a / 2 ^ 21 < 512 := by
      apply Nat.div_lt_of_lt_mul
      omega
    have hdivpos : 0 < a / 2 ^ 21 := Nat.div_pos ha1 (by norm_num)
    have h21 : a / 2 ^ 21 % 512 = a / 2 ^ 21 := Nat.mod_eq_of_lt hdivlt
    have hmem2 : memAfterSetup (45056 + 8 * (a / 2097152)) = 0 := by
      have hlt : a / 2097152 < 512 := hdivlt
      have hpos : 0 < a / 2097152 := hdivpos
      unfold memAfterSetup PML4_START PDPTE_START PDE_START
      rw [if_neg (by rintro ⟨-, hcon⟩; omega),
          if_neg (by rintro ⟨-, hcon⟩; omega),
          if_pos (⟨by omega, by omega⟩ : _ ∧ _)]
      have hidx : (45056 + 8 * (a / 2097152) - 45056) / 8 = a / 2097152 := by
        omega
      rw [hidx]
      show (if a / 2097152 = 0 then _ else 0) = 0
      rw [if_neg (by omega)]
    show pageWalk memAfterSetup 0x9000 a = none
    unfold pageWalk
    rw [h39, h30, h21]
    norm_num [hm4, hm3, hm2, ptePresent, pteAddr, ptePS, pteFlags, hmem2]

theorem c1_amended_witness :
    0x123456 < 2 ^ 21
    ∧ pageWalk memAfterSetup PML4_START 0x123456 = some (0x123456, 0x183, 2 ^ 21) :=
  ⟨by decide, (c1_amended.2.2.2.2.1) 0x123456 (by decide)⟩

/-! ### C5/C6: hypercall dispatch (kvmvm.rs handle_syscall) -/

/-- Modelled from the spec: the vmsyscall crate's error union (its lib.rs is
not under src/); a reply error is `Errno(i64)`. -/
inductive VmError where
  | Errno (n : Int)
  deriving DecidableEq

def EBADF : Int := 9

def ENOSYS : Int := 38

/-- Modelled from the spec: the tagged request union at SYSCALL_PHYS_ADDR
(vmsyscall's lib.rs is not under src/).  `Write` carries `fd`, `count` and
an inline data buffer of 4000 bytes, matching the host-side bound. -/
inductive VmSyscall where
  | Write (fd : Int) (count : Nat) (data : List Nat)
  | Read (fd : Int) (count : Nat)
  | Mmap (addr length prot flags : Nat)
  | Madvise (addr length advice : Nat)
  | Mremap (old_address old_size new_size flags : Nat)
  | Munmap (addr length : Nat)
  | Mprotect (addr length prot : Nat)
  deriving DecidableEq

deriving instance DecidableEq for Except

/-- Modelled from the spec: the same-tagged reply union. -/
inductive VmSyscallRet where
  | Write (r : Except VmError Nat)
  | Read (r : Except VmError Nat)
  | Mmap (r : Except VmError Nat)
  | Madvise (r : Except VmError Nat)
  | Mremap (r : Except VmError Nat)
  | Munmap (r : Except VmError Nat)
  | Mprotect (r : Except VmError Nat)
  deriving DecidableEq

/-- `KvmVm::handle_syscall`: the reply written back to the shared page, and
the bytes the host wrote to its stdout (1) or stderr (2), if any.  `io`
models the outcome of `write_all`: `none` is success, `some e` an I/O error
whose `raw_os_error()` is `e` (`Errno(e.unwrap_or(EBADF))` in the reply). -/
def handle_syscall (req : VmSyscall) (io : Option (Option Int)) :
    VmSyscallRet × Option (Nat × List Nat) :=
  match req with
  | .Write fd count data =>
    if fd = 1 then
      match io with
      | none => (.Write (.ok (if count > 4000 then 4000 else count)),
          some (1, data.take (if count > 4000 then 4000 else count)))
      | some e => (.Write (.error (.Errno (e.getD EBADF))), none)
    else if fd = 2 then
      match io with
      | none => (.Write (.ok (if count > 4000 then 4000 else count)),
          some (2, data.take (if count > 4000 then 4000 else count)))
      | some e => (.Write (.error (.Errno (e.getD EBADF))), none)
    else (.Write (.error (.Errno EBADF)), none)
  | .Read _ _ => (.Read (.error (.Errno EBADF)), none)
  | .Mmap _ _ _ _ => (.Mmap (.error (.Errno ENOSYS)), none)
  | .Madvise _ _ _ => (.Madvise (.error (.Errno ENOSYS)), none)
  | .Mremap _ _ _ _ => (.Mremap (.error (.Errno ENOSYS)), none)
  | .Munmap _ _ => (.Munmap (.error (.Errno ENOSYS)), none)
  | .Mprotect _ _ _ => (.Mprotect (.error (.Errno ENOSYS)), none)

/-- C5: every request gets a same-tagged reply; a Write with fd outside
{1,2} gets `Write(Err(Errno(EBADF)))`, Read always gets
`Read(Err(Errno(EBADF)))`, and each of Mmap, Munmap, Mremap, Madvise,
Mprotect gets `Err(Errno(ENOSYS))` under its own tag. -/
theorem c5_replies (io : Option (Option Int)) :
    (∀ fd count data, fd ≠ 1 → fd ≠ 2 →
      handle_syscall (.Write fd count data) io
        = (.Write (.error (.Errno EBADF)), none))
    ∧ (∀ fd count, handle_syscall (.Read fd count) io
        = (.Read (.error (.Errno EBADF)), none))
    ∧ (∀ a b c d, handle_syscall (.Mmap a b c d) io
        = (.Mmap (.error (.Errno ENOSYS)), none))
    ∧ (∀ a b, handle_syscall (.Munmap a b) io
        = (.Munmap (.error (.Errno ENOSYS)), none))
    ∧ (∀ a b c d, handle_syscall (.Mremap a b c d) io
        = (.Mremap (.error (.Errno ENOSYS)), none))
    ∧ (∀ a b c, handle_syscall (.Madvise a b c) io
        = (.Madvise (.error (.Errno ENOSYS)), none))
    ∧ (∀ a b c, handle_syscall (.Mprotect a b c) io
        = (.Mprotect (.error (.Errno ENOSYS)), none)) := by
  refine ⟨?_, fun fd count => rfl, fun a b c d => rfl, fun a b => rfl,
    fun a b c d => rfl, fun a b c => rfl, fun a b c => rfl⟩
  intro fd count data h1 h2
  show (if fd = 1 then _ else if fd = 2 then _ else _) = _
  rw [if_neg h1, if_neg h2]

/-- S3 instance of `c5_replies`: Write{fd=7, count=1, data="x"} is answered
with `Write(Err(Errno(EBADF)))`. -/
theorem c5_replies_witness :
    (7 : Int) ≠ 1 ∧ (7 : Int) ≠ 2
    ∧ handle_syscall (.Write 7 1 [120]) none
      = (.Write (.error (.Errno EBADF)), none) :=
  ⟨by decide, by decide, (c5_replies none).1 7 1 [120] (by decide) (by decide)⟩

/-- C6: a Write with fd in {1,2} and successful host I/O writes exactly
`min(count, 4000)` bytes from the start of the inline buffer to stdout
(fd 1) or stderr (fd 2) and replies `Write(Ok(min(count, 4000)))`. -/
theorem c6_write_clamped (fd : Int) (count : Nat) (data : List Nat)
    (hfd : fd = 1 ∨ fd = 2) (hdata : data.length = 4000) :
    handle_syscall (.Write fd count data) none
      = (.Write (.ok (min count 4000)),
          some (fd.toNat, data.take (min count 4000)))
    ∧ (data.take (min count 4000)).length = min count 4000 := by
  have hmin : (if count > 4000 then 4000 else count) = min count 4000 := by
    split_ifs with h <;> omega
  have hlen : (data.take (min count 4000)).length = min count 4000 := by
    rw [List.length_take, hdata]
    omega
  rcases hfd with rfl | rfl
  · constructor
    · show ((VmSyscallRet.Write (.ok (if count > 4000 then 4000 else count)),
        some ((1 : Nat), data.take (if count > 4000 then 4000 else count)))
          : VmSyscallRet × Option (Nat × List Nat)) = _
      rw [hmin]
      rfl
    · exact hlen
  · constructor
    · show ((VmSyscallRet.Write (.ok (if count > 4000 then 4000 else count)),
        some ((2 : Nat), data.take (if count > 4000 then 4000 else count)))
          : VmSyscallRet × Option (Nat × List Nat)) = _
      rw [hmin]
      rfl
    · exact hlen

/-- S2 instance of `c6_write_clamped`: Write{fd=2, count=10000} puts 4000
bytes on stderr and replies `Write(Ok(4000))`. -/
theorem c6_write_clamped_witness :
    ((2 : Int) = 1 ∨ (2 : Int) = 2)
    ∧ (List.replicate 4000 (120 : Nat)).length = 4000
    ∧ (handle_syscall (.Write 2 10000 (List.replicate 4000 120)) none
        = (.Write (.ok (min 10000 4000)),
            some ((2 : Int).toNat, (List.replicate 4000 120).take (min 10000 4000)))
      ∧ ((List.replicate 4000 (120 : Nat)).take (min 10000 4000)).length
          = min 10000 4000) :=
  ⟨Or.inr rfl, by rw [List.length_replicate],
    c6_write_clamped 2 10000 (List.replicate 4000 120) (Or.inr rfl)
      (by rw [List.length_replicate])⟩

/-! ### C7/C10: guest memory slots (kvmvm.rs) -/

inductive ErrorKind where
  | MemRegionWithSlotAlreadyExists
  | OverlappingUserspaceMemRegionExists
  | NoMappingForVirtualAddress
  deriving DecidableEq

/-- The fields of `UserspaceMemRegion` / `kvm_userspace_memory_region` the
address translation and the registration checks read. -/
structure UserspaceMemRegion where
  slot : Nat
  guest_phys_addr : Nat
  memory_size : Nat
  host_mem : Nat
  deriving DecidableEq

/-- `KvmVm::addr_gpa2hva`: linear scan of the registered regions; the first
whose inclusive range `[gpa, gpa + size - 1]` contains the address yields
`host_mem + (addr - gpa)` ... errors with `NoMappingForVirtualAddress`. -/
def addr_gpa2hva : List UserspaceMemRegion → Nat → Except ErrorKind Nat
  | [], _ => .error .NoMappingForVirtualAddress
  | r :: rs, addr =>
    if r.guest_phys_addr ≤ addr
        ∧ addr ≤ r.guest_phys_addr + r.memory_size - 1 then
      .ok (r.host_mem + (addr - r.guest_phys_addr))
    else addr_gpa2hva rs addr

/-- C7: for an address inside a registered slot's half-open guest range the
translation returns that slot's host base plus the offset (host result −
host base = addr − guest base); for an address in no slot it fails with
`NoMappingForVirtualAddress`.  Registered slots are pairwise disjoint and
nonempty, as `vm_userspace_mem_region_add` guarantees. -/
theorem c7_gpa2hva :
    (∀ (regions : List UserspaceMemRegion) (r : UserspaceMemRegion) (addr : Nat),
      r ∈ regions →
      (∀ s ∈ regions, 1 ≤ s.memory_size) →
      List.Pairwise (fun s t =>
        s.guest_phys_addr + s.memory_size ≤ t.guest_phys_addr
        ∨ t.guest_phys_addr + t.memory_size ≤ s.guest_phys_addr) regions →
      r.guest_phys_addr ≤ addr → addr < r.guest_phys_addr + r.memory_size →
      addr_gpa2hva regions addr = .ok (r.host_mem + (addr - r.guest_phys_addr)))
    ∧ (∀ (regions : List UserspaceMemRegion) (addr : Nat),
      (∀ s ∈ regions, 1 ≤ s.memory_size) →
      (∀ s ∈ regions,
        ¬(s.guest_phys_addr ≤ addr ∧ addr < s.guest_phys_addr + s.memory_size)) →
      addr_gpa2hva regions addr = .error .NoMappingForVirtualAddress) := by
  constructor
  · intro regions
    induction regions with
    | nil => intro r addr hmem; cases hmem
    | cons s rs ih =>
      intro r addr hmem hsz hpair h1 h2
      obtain ⟨hhead, htail⟩ := List.pairwise_cons.mp hpair
      rcases List.mem_cons.mp hmem with rfl | hmem2
      · unfold addr_gpa2hva
        rw [if_pos ⟨h1, by have := hsz r (by simp); omega⟩]
      · have hd := hhead r hmem2
        have hs1 := hsz s (by simp)
        have hsr := hsz r (by simp [hmem2])
        unfold addr_gpa2hva
        rw [if_neg (by rintro ⟨hc1, hc2⟩; rcases hd with hd | hd <;> omega)]
        exact ih r addr hmem2 (fun t ht => hsz t (by simp [ht])) htail h1 h2
  · intro regions
    induction regions with
    | nil => intro addr h1 h2; rfl
    | cons s rs ih =>
      intro addr hsz hnone
      have hs1 := hsz s (by simp)
      unfold addr_gpa2hva
      rw [if_neg (by
        rintro ⟨hc1, hc2⟩
        exact hnone s (by simp) ⟨hc1, by omega⟩)]
      exact ih addr (fun t ht => hsz t (by simp [ht]))
        (fun t ht => hnone t (by simp [ht]))

/-- Concrete instantiation of `c7_gpa2hva`: the slot
`{gpa = 0x1000, size = 0x2000, host = 0xAA0000}` translates guest-physical
0x1800 to 0xAA0000 + 0x800, and guest-physical 0x4000 is unmapped. -/
theorem c7_gpa2hva_witness :
    addr_gpa2hva [⟨0, 0x1000, 0x2000, 0xAA0000⟩] 0x1800
      = .ok (0xAA0000 + (0x1800 - 0x1000))
    ∧ addr_gpa2hva [⟨0, 0x1000, 0x2000, 0xAA0000⟩] 0x4000
      = .error ErrorKind.NoMappingForVirtualAddress :=
  ⟨c7_gpa2hva.1 [⟨0, 0x1000, 0x2000, 0xAA0000⟩] ⟨0, 0x1000, 0x2000, 0xAA0000⟩
      0x1800 (by simp) (by intro s hs; rw [List.mem_singleton] at hs; subst hs; decide)
      (by simp) (by decide) (by decide),
    c7_gpa2hva.2 [⟨0, 0x1000, 0x2000, 0xAA0000⟩] 0x4000
      (by intro s hs; rw [List.mem_singleton] at hs; subst hs; decide)
      (by intro s hs; rw [List.mem_singleton] at hs; subst hs; decide)⟩

/-- The validation loop of `KvmVm::vm_userspace_mem_region_add` (the
subsequent mmap and KVM ioctl are host side effects outside the model):
for each registered region, in order, a duplicate slot id fails with
`MemRegionWithSlotAlreadyExists`, and `guest_paddr ≤ r.gpa + r.size ∧
r.gpa ≤ guest_paddr + npages * page_size` fails with
`OverlappingUserspaceMemRegionExists`.  `none` means both checks passed. -/
def vm_userspace_mem_region_add_check :
    List UserspaceMemRegion → Nat → Nat → Nat → Nat → Option ErrorKind
  | [], _, _, _, _ => none
  | r :: rs, guest_paddr, slot, npages, page_size =>
    if r.slot = slot then some .MemRegionWithSlotAlreadyExists
    else if guest_paddr ≤ r.guest_phys_addr + r.memory_size
        ∧ r.guest_phys_addr ≤ guest_paddr + npages * page_size then
      some .OverlappingUserspaceMemRegionExists
    else vm_userspace_mem_region_add_check rs guest_paddr slot npages page_size

/-- C10: with a fresh slot id, a new region that even merely touches a
registered one — `guest_paddr ≤ r.gpa + r.size` and `r.gpa ≤ guest_paddr +
npages*4096`, both inclusive — is refused with
`OverlappingUserspaceMemRegionExists`; in particular a slot exactly
adjacent to an existing one is refused. -/
theorem c10_touching_rejected (regions : List UserspaceMemRegion)
    (guest_paddr slot npages : Nat)
    (hslot : ∀ r ∈ regions, r.slot ≠ slot)
    (htouch : ∃ r ∈ regions,
      guest_paddr ≤ r.guest_phys_addr + r.memory_size
      ∧ r.guest_phys_addr ≤ guest_paddr + npages * 4096) :
    vm_userspace_mem_region_add_check regions guest_paddr slot npages 4096
      = some ErrorKind.OverlappingUserspaceMemRegionExists := by
  induction regions with
  | nil => obtain ⟨r, hr, -⟩ := htouch; cases hr
  | cons s rs ih =>
    unfold vm_userspace_mem_region_add_check
    rw [if_neg (hslot s (by simp))]
    by_cases hc : guest_paddr ≤ s.guest_phys_addr + s.memory_size
        ∧ s.guest_phys_addr ≤ guest_paddr + npages * 4096
    · rw [if_pos hc]
    · rw [if_neg hc]
      refine ih (fun r hr => hslot r (by simp [hr])) ?_
      obtain ⟨r, hr, hr2⟩ := htouch
      rcases List.mem_cons.mp hr with rfl | hr3
      · exact absurd hr2 hc
      · exact ⟨r, hr3, hr2⟩

/-- Adjacency instance of `c10_touching_rejected`: a slot starting exactly
at the end (0x1000) of the registered region `[0, 0x1000)` is refused. -/
theorem c10_touching_rejected_witness :
    vm_userspace_mem_region_add_check [⟨0, 0, 0x1000, 0⟩] 0x1000 1 1 4096
      = some ErrorKind.OverlappingUserspaceMemRegionExists :=
  c10_touching_rejected [⟨0, 0, 0x1000, 0⟩] 0x1000 1 1
    (by intro r hr; rw [List.mem_singleton] at hr; subst hr; decide)
    ⟨⟨0, 0, 0x1000, 0⟩, by simp, by decide, by decide⟩

/-! ### C8: init_stack (kernel arch/x86_64/mod.rs) -/

def STACK_START : Nat := 0x484800000000

def STACK_SIZE : Nat := 1024 * 1024

def PAGE_PRESENT : Nat := 1

def PAGE_WRITABLE : Nat := 2

structure TaskStateSegment where
  privilege_stack_table : List Nat
  deriving DecidableEq

/-- The page mappings `init_stack` requests: `stack_start = STACK_START`,
`stack_end = stack_start + STACK_SIZE - 1u64`; every page from
`stack_start_page + 1` to `stack_end_page` is mapped PRESENT|WRITABLE, and
the guard page at `stack_start_page` is mapped PRESENT only. -/
def init_stack_pages : List (Nat × Nat) :=
  ((List.range ((STACK_START + STACK_SIZE - 1) / 4096 - (STACK_START / 4096 + 1) + 1)).map
    (fun k => (STACK_START / 4096 + 1 + k, PAGE_PRESENT ||| PAGE_WRITABLE)))
  ++ [(STACK_START / 4096, PAGE_PRESENT)]

/-- The TSS update of `init_stack`:
`tss.privilege_stack_table[0] = stack_end` where
`stack_end = stack_start + STACK_SIZE - 1u64`. -/
def init_stack_tss (tss : TaskStateSegment) : TaskStateSegment :=
  { privilege_stack_table :=
      tss.privilege_stack_table.set 0 (STACK_START + STACK_SIZE - 1) }

/-- C8 counterexample: after `init_stack`, the ring-0 privilege stack
pointer is 0x4848000FFFFF, which is STACK_START + STACK_SIZE − 1, not
STACK_START + STACK_SIZE. -/
theorem c8_counterexample :
    (init_stack_tss ⟨List.replicate 3 0⟩).privilege_stack_table.getD 0 0
      = 0x4848000FFFFF
    ∧ (0x4848000FFFFF : Nat) ≠ STACK_START + STACK_SIZE := by decide

/-- C8 (amended): after `init_stack` returns successfully,
`tss.privilege_stack_table[0] = STACK_START + STACK_SIZE - 1` (the code
computes `stack_end` as `stack_start + STACK_SIZE - 1u64` and stores that
value). -/
theorem c8_amended (tss : TaskStateSegment)
    (h : 0 < tss.privilege_stack_table.length) :
    (init_stack_tss tss).privilege_stack_table.getD 0 0
      = STACK_START + STACK_SIZE - 1 := by
  rcases tss with ⟨l⟩
  cases l with
  | nil => simp at h
  | cons a l => simp [init_stack_tss, List.getD]

theorem c8_amended_witness :
    0 < (TaskStateSegment.mk [0, 0, 0]).privilege_stack_table.length
    ∧ (init_stack_tss ⟨[0, 0, 0]⟩).privilege_stack_table.getD 0 0
      = STACK_START + STACK_SIZE - 1 :=
  ⟨by decide, c8_amended ⟨[0, 0, 0]⟩ (by decide)⟩

/-! ### C9: AT_RANDOM in exec_app (kernel arch/x86_64/mod.rs) -/

/-- Little-endian byte decomposition of a `u64` value. -/
def u64LeBytes (x : Nat) : List Nat :=
  (List.range 8).map (fun i => x / 256 ^ i % 256)

/-- The AT_RANDOM construction of `exec_app`.  The code sets
`crt0sp.random = Some([0u8; 16])` and then takes
`let ra = &mut crt0sp.random.unwrap()`: `Option<[u8; 16]>` is `Copy`, so
`unwrap()` returns a copy of the array and `ra` mutably borrows that
temporary; the two `copy_from_slice` calls write the RDRAND bytes into the
copy, which is then dropped.  `crt0sp.random` still holds the zeroed array
when the stack is serialized.  Modelled from the spec for the missing
serializer: crt0stack emits the `random` field as the AT_RANDOM value. -/
def exec_app_at_random (r1 r2 : Nat) : List Nat :=
  let random : Option (List Nat) := some (List.replicate 16 0)
  let ra := random.getD []
  let ra := u64LeBytes r1 ++ ra.drop 8
  let ra := ra.take 8 ++ u64LeBytes r2
  let _ := ra
  random.getD []

/-- C9: the serialized AT_RANDOM value is the all-zero array regardless of
the two RDRAND reads — at the concrete reads 0x0102030405060708 and
0x1112131415161718 it differs from the claimed concatenation of their
bytes. -/
theorem c9_at_random_zero :
    (∀ r1 r2, exec_app_at_random r1 r2 = List.replicate 16 0)
    ∧ exec_app_at_random 0x0102030405060708 0x1112131415161718
        ≠ u64LeBytes 0x0102030405060708 ++ u64LeBytes 0x1112131415161718 := by
  refine ⟨fun r1 r2 => rfl, ?_⟩
  decide
